import Mathlib

/-!
# Verification of the `rust-bcf` BCF 2.2 decoder

Shallow embedding of the decoder in `src/parser.rs`, `src/types.rs`,
`src/reader.rs`, `src/record/eager.rs`, `src/record/lazy.rs` and
`src/record.rs`, together with theorems settling the specification claims.

Bytes are modelled as `Nat` (each byte read is normalised `% 256`, mirroring
the `u8` type); `f32` values are modelled by their raw 32-bit pattern
(a `Nat < 2^32`), which is faithful because the decoder only moves float
bits around and inspects them with `to_bits`/`is_nan`.

Failure is explicit: nom's streaming `Incomplete` and `Error` outcomes, and
Rust panics (`assert!`, `unwrap`, `unreachable!`, `unimplemented!`,
out-of-bounds slicing, and debug-build integer-overflow panics)
are the three constructors of `PErr`.
-/

namespace RustBcf

/-- Failure of a decoding step: nom `Incomplete`, nom `Error`, or a Rust panic. -/
inductive PErr where
  | incomplete
  | error
  | panicked
  deriving DecidableEq, Repr

instance {ε α : Type} [DecidableEq ε] [DecidableEq α] : DecidableEq (Except ε α) := fun x y =>
  match x, y with
  | .ok a, .ok b =>
    if h : a = b then isTrue (by rw [h])
    else isFalse (by intro hc; injection hc; contradiction)
  | .error a, .error b =>
    if h : a = b then isTrue (by rw [h])
    else isFalse (by intro hc; injection hc; contradiction)
  | .ok _, .error _ => isFalse (fun hc => Except.noConfusion hc)
  | .error _, .ok _ => isFalse (fun hc => Except.noConfusion hc)

/-- A nom-style parser over a byte list: returns the value and the remaining input. -/
def Parser (α : Type) : Type := List Nat → Except PErr (α × List Nat)

namespace Parser

def pure (a : α) : Parser α := fun input => .ok (a, input)

def bind (p : Parser α) (f : α → Parser β) : Parser β := fun input =>
  match p input with
  | .error e => .error e
  | .ok (a, rest) => f a rest

instance : Monad Parser where
  pure := Parser.pure
  bind := Parser.bind

/-- Abort with a failure. -/
def fail (e : PErr) : Parser α := fun _ => .error e

/-- `Result::unwrap()` applied to a nom result: any failure becomes a panic. -/
def unwrap (r : Except PErr α) : Except PErr α :=
  match r with
  | .ok a => .ok a
  | .error _ => .error .panicked

end Parser

/-! ## Little-endian numeric readers (nom's `le_*`, streaming) -/

/-- nom `le_u8`. -/
def le_u8 : Parser Nat
  | [] => .error .incomplete
  | b :: rest => .ok (b % 256, rest)

/-- nom `le_u16`. -/
def le_u16 : Parser Nat
  | b0 :: b1 :: rest => .ok (b0 % 256 + 256 * (b1 % 256), rest)
  | _ => .error .incomplete

/-- nom `le_u24`. -/
def le_u24 : Parser Nat
  | b0 :: b1 :: b2 :: rest =>
      .ok (b0 % 256 + 256 * (b1 % 256) + 65536 * (b2 % 256), rest)
  | _ => .error .incomplete

/-- nom `le_u32`. -/
def le_u32 : Parser Nat
  | b0 :: b1 :: b2 :: b3 :: rest =>
      .ok (b0 % 256 + 256 * (b1 % 256) + 65536 * (b2 % 256) + 16777216 * (b3 % 256), rest)
  | _ => .error .incomplete

/-- Two's-complement interpretation of an unsigned value of the given width. -/
def toSigned (w : Nat) (v : Nat) : Int :=
  if v % 2 ^ w < 2 ^ (w - 1) then (v % 2 ^ w : Nat) else (v % 2 ^ w : Nat) - (2 ^ w : Nat)

/-- nom `le_i8`. -/
def le_i8 : Parser Int
  | [] => .error .incomplete
  | b :: rest => .ok (toSigned 8 b, rest)

/-- nom `le_i16`. -/
def le_i16 : Parser Int
  | b0 :: b1 :: rest => .ok (toSigned 16 (b0 % 256 + 256 * (b1 % 256)), rest)
  | _ => .error .incomplete

/-- nom `le_i32`. -/
def le_i32 : Parser Int
  | b0 :: b1 :: b2 :: b3 :: rest =>
      .ok (toSigned 32 (b0 % 256 + 256 * (b1 % 256) + 65536 * (b2 % 256) + 16777216 * (b3 % 256)),
        rest)
  | _ => .error .incomplete

/-- nom `le_f32`: an `f32` is represented by its raw little-endian 32-bit pattern. -/
def le_f32 : Parser Nat
  | b0 :: b1 :: b2 :: b3 :: rest =>
      .ok (b0 % 256 + 256 * (b1 % 256) + 65536 * (b2 % 256) + 16777216 * (b3 % 256), rest)
  | _ => .error .incomplete

/-- nom `take(n)` (streaming): `n` bytes verbatim. -/
def nomTake (n : Nat) : Parser (List Nat) := fun input =>
  if n ≤ input.length then .ok (input.take n, input.drop n) else .error .incomplete

/-- Rust's `usize` cast of a signed value (`v as usize`), i.e. wrap-around mod `2^64`. -/
def intAsUsize (v : Int) : Nat := (v % (2 ^ 64 : Nat)).toNat

/-- `f32::is_nan()` on a raw bit pattern: exponent all ones and non-zero mantissa. -/
def f32_is_nan (bits : Nat) : Bool :=
  (bits / 2 ^ 23) % 256 = 255 && bits % 2 ^ 23 ≠ 0

/-! ## `src/types.rs`: type kinds and descriptors -/

/-- `TypeKind` (types.rs): values 4 and 6 are reserved and absent from the enum. -/
inductive TypeKind where
  | Missing
  | Int8
  | Int16
  | Int32
  | Float32
  | String
  deriving DecidableEq, Repr

/-- `TypeKind::try_from` (derived `TryFromPrimitive`). -/
def TypeKind.tryFrom (v : Nat) : Option TypeKind :=
  match v with
  | 0 => some .Missing
  | 1 => some .Int8
  | 2 => some .Int16
  | 3 => some .Int32
  | 5 => some .Float32
  | 7 => some .String
  | _ => none

/-- `TypeDescriptor` (types.rs). -/
structure TypeDescriptor where
  kind : TypeKind
  num_elements : Nat
  deriving DecidableEq, Repr

/-- `read_uint` (parser.rs): unsigned integer of the width named by `kind`;
the leading `assert!` panics for non-integer kinds. -/
def read_uint (kind : TypeKind) : Parser Nat :=
  match kind with
  | .Int8 => le_u8
  | .Int16 => le_u16
  | .Int32 => le_u32
  | _ => Parser.fail .panicked

/-- `type_descriptor` (parser.rs): one byte, low 4 bits the kind, high 4 bits
the element count; count 15 means the real count follows as a nested typed
integer.  `assert_eq!(num_num_elements_ints, 1)` and
`TypeKind::try_from(..).unwrap()` panic on violation. -/
def type_descriptor : List Nat → Except PErr (TypeDescriptor × List Nat)
  | [] => .error .incomplete
  | b :: rest =>
    let type_kind := b % 16
    let ne := (b / 16) % 16
    let step : Except PErr (Nat × List Nat) :=
      if ne = 15 then
        match type_descriptor rest with
        | .error e => .error e
        | .ok (td, rest2) =>
          if td.num_elements = 1 then
            read_uint td.kind rest2
          else
            .error .panicked
      else
        .ok (ne, rest)
    match step with
    | .error e => .error e
    | .ok (n, rest') =>
      match TypeKind.tryFrom type_kind with
      | some k => .ok (⟨k, n⟩, rest')
      | none => .error .panicked

/-! ## Spec-side re-statement of the type-descriptor rule (claim C3)

`type_descriptor_claim` is written from the words of the claim alone, to be
compared with `type_descriptor` above (which is translated from the source):
"reading a type descriptor takes one byte whose low 4 bits give the kind and
whose high 4 bits give num_elements; when the high 4 bits equal 15, a nested
type descriptor is read which must describe exactly one integer (otherwise a
decode error), and the actual num_elements is then read as an unsigned
integer of the nested descriptor's width (8, 16 or 32 bits)". -/

/-- The integer width (in bits) of an integer `TypeKind`, per the claim. -/
def intWidth : TypeKind → Option Nat
  | .Int8 => some 8
  | .Int16 => some 16
  | .Int32 => some 32
  | _ => none

/-- Read a little-endian unsigned integer of `w` bits (`w ∈ {8, 16, 32}`). -/
def readUnsigned (w : Nat) : Parser Nat := fun input =>
  if w / 8 ≤ input.length then
    .ok ((List.range (w / 8)).foldr (fun i acc => acc * 256 + input.getD i 0 % 256) 0,
      input.drop (w / 8))
  else .error .incomplete

/-- Claim C3, as stated: one byte; low 4 bits the kind (via the fixed table),
high 4 bits `num_elements`; high nibble 15 → read a nested descriptor, fail
unless it describes exactly one integer, then read the actual count as an
unsigned integer of the nested descriptor's width. -/
def type_descriptor_claim : List Nat → Except PErr (TypeDescriptor × List Nat)
  | [] => .error .incomplete
  | b :: rest =>
    let kindBits := b % 16
    let countBits := (b / 16) % 16
    let count : Except PErr (Nat × List Nat) :=
      if countBits = 15 then
        match type_descriptor_claim rest with
        | .error e => .error e
        | .ok (nested, rest2) =>
          match intWidth nested.kind with
          | some w =>
            if nested.num_elements = 1 then readUnsigned w rest2 else .error .panicked
          | none => .error .panicked
      else
        .ok (countBits, rest)
    match count with
    | .error e => .error e
    | .ok (n, rest') =>
      match TypeKind.tryFrom kindBits with
      | some k => .ok (⟨k, n⟩, rest')
      | none => .error .panicked

/-! ### Lemmas relating `read_uint` to the claim-side unsigned readers -/

theorem le_u8_eq_readUnsigned (input : List Nat) : le_u8 input = readUnsigned 8 input := by
  cases input <;> simp [le_u8, readUnsigned, List.range_succ]

theorem le_u16_eq_readUnsigned (input : List Nat) : le_u16 input = readUnsigned 16 input := by
  match input with
  | [] => simp [le_u16, readUnsigned]
  | [b0] => simp [le_u16, readUnsigned]
  | b0 :: b1 :: rest =>
    simp [le_u16, readUnsigned, List.range_succ]
    ring

theorem le_u32_eq_readUnsigned (input : List Nat) : le_u32 input = readUnsigned 32 input := by
  match input with
  | [] => simp [le_u32, readUnsigned]
  | [b0] => simp [le_u32, readUnsigned]
  | [b0, b1] => simp [le_u32, readUnsigned]
  | [b0, b1, b2] => simp [le_u32, readUnsigned]
  | b0 :: b1 :: b2 :: b3 :: rest =>
    simp [le_u32, readUnsigned, List.range_succ]
    ring

theorem read_uint_eq_claim (k : TypeKind) (input : List Nat) :
    read_uint k input =
      match intWidth k with
      | some w => readUnsigned w input
      | none => .error .panicked := by
  cases k <;>
    simp [read_uint, intWidth, Parser.fail, le_u8_eq_readUnsigned, le_u16_eq_readUnsigned,
      le_u32_eq_readUnsigned]

/-- C3: the source decoder agrees with the claim's description on every input. -/
theorem type_descriptor_eq_claim (input : List Nat) :
    type_descriptor input = type_descriptor_claim input := by
  induction input with
  | nil => rfl
  | cons b rest ih =>
    rw [type_descriptor, type_descriptor_claim, ih]
    rcases h : type_descriptor_claim rest with e | ⟨td, rest2⟩
    · rfl
    · by_cases h15 : (b / 16) % 16 = 15
      · simp only [h15, if_true, read_uint_eq_claim]
        rcases hw : intWidth td.kind with _ | w
        · by_cases h1 : td.num_elements = 1 <;> simp [h1, hw]
        · by_cases h1 : td.num_elements = 1 <;> simp [h1, hw]
      · simp only [h15, if_false]

/-- C3: for every byte input, reading a type descriptor takes one byte whose
low 4 bits give the kind and whose high 4 bits give num_elements; when the
high 4 bits equal 15, a nested type descriptor is read which must describe
exactly one integer (otherwise decoding fails), and the actual num_elements
is then read as an unsigned integer of the nested descriptor's width
(8, 16 or 32 bits) — stated as: the source decoder `type_descriptor` agrees
with `type_descriptor_claim`, the rule as worded by the claim, on every input. -/
theorem claim_C3_type_descriptor (input : List Nat) :
    type_descriptor input = type_descriptor_claim input :=
  type_descriptor_eq_claim input

/-- C4 counterexample: on the byte `0x14` (low 4 bits = 4, a reserved kind)
the decoder panics (`TypeKind::try_from(4).unwrap()`), it does not return an
error value — refuting the claim that reserved kinds yield "a returned error
value, not a success and not a panic".  Likewise for `0x16` (low bits = 6). -/
theorem claim_C4_counterexample :
    type_descriptor [0x14] = .error .panicked ∧
    type_descriptor [0x16] = .error .panicked ∧
    PErr.panicked ≠ PErr.error := by
  refine ⟨rfl, rfl, by decide⟩

/-- C4 amended: for every input byte whose low 4 bits are 4 or 6 (the
reserved type kinds), decoding a type descriptor never succeeds; when the
element count is immediate (high nibble ≠ 15) the outcome is precisely a
panic (from `TypeKind::try_from(..).unwrap()`), not a returned error value. -/
theorem claim_C4_reserved_kinds (b : Nat) (rest : List Nat)
    (h : b % 16 = 4 ∨ b % 16 = 6) :
    (∀ v, type_descriptor (b :: rest) ≠ .ok v) ∧
    ((b / 16) % 16 ≠ 15 → type_descriptor (b :: rest) = .error .panicked) := by
  have hnone : TypeKind.tryFrom (b % 16) = none := by
    rcases h with h | h <;> rw [h] <;> rfl
  rw [type_descriptor]
  constructor
  · intro v
    rcases hs : (if (b / 16) % 16 = 15 then
        match type_descriptor rest with
        | .error e => .error e
        | .ok (td, rest2) =>
          if td.num_elements = 1 then read_uint td.kind rest2 else .error .panicked
      else .ok ((b / 16) % 16, rest) : Except PErr (Nat × List Nat)) with e | ⟨n, rest'⟩ <;>
      simp [hs, hnone]
  · intro h15
    simp only [h15, if_false, hnone]

/-- C4 witness: the amended theorem applied at the concrete byte `0x14`. -/
theorem claim_C4_reserved_kinds_witness :
    (∀ v, type_descriptor [0x14] ≠ .ok v) ∧
    ((0x14 / 16) % 16 ≠ 15 → type_descriptor [0x14] = .error .panicked) :=
  claim_C4_reserved_kinds 0x14 [] (by decide)

/-! ## Typed values (`src/types.rs`, `src/parser.rs`) -/

/-- Run `p` exactly `n` times (nom `many_m_n(n, n, p)`). -/
def manyMN (n : Nat) (p : Parser α) : Parser (List α) :=
  match n with
  | 0 => fun input => .ok ([], input)
  | n + 1 => fun input =>
    match p input with
    | .error e => .error e
    | .ok (a, rest) =>
      match manyMN n p rest with
      | .error e => .error e
      | .ok (l, rest2) => .ok (a :: l, rest2)

/-- Map over a parser's result. -/
def mapP (p : Parser α) (f : α → β) : Parser β := fun input =>
  match p input with
  | .error e => .error e
  | .ok (a, rest) => .ok (f a, rest)

/-- Rust `slice::split_at(n)`: take `n` bytes, panicking when the slice is
shorter than `n` (unlike nom's `take`, which reports `Incomplete`). -/
def splitAtPanic (n : Nat) : Parser (List Nat) := fun input =>
  if n ≤ input.length then .ok (input.take n, input.drop n) else .error .panicked

/-- `typed_string` (parser.rs): descriptor, `assert_eq!(kind, String)` (panic),
then `num_elements` bytes verbatim. -/
def typed_string : Parser (List Nat) := fun input =>
  match type_descriptor input with
  | .error e => .error e
  | .ok (td, rest) =>
    if td.kind = .String then nomTake td.num_elements rest else .error .panicked

/-- The signed-integer reader selected by a `TypeKind`; a panic for any
non-integer kind (the `panic!`/`unreachable!` arms of the source matches). -/
def le_int (k : TypeKind) : Parser Int :=
  match k with
  | .Int8 => le_i8
  | .Int16 => le_i16
  | .Int32 => le_i32
  | _ => Parser.fail .panicked

/-- `typed_int` (parser.rs): descriptor, `assert_eq!(num_elements, 1)` (panic),
then one signed integer of the declared width, cast `as usize`. -/
def typed_int : Parser Nat := fun input =>
  match type_descriptor input with
  | .error e => .error e
  | .ok (td, rest) =>
    if td.num_elements = 1 then mapP (le_int td.kind) intAsUsize rest else .error .panicked

/-- `typed_ints` (parser.rs): descriptor, then `num_elements` signed integers
cast `as usize`; a `Missing` descriptor yields the empty list; any other
kind panics. -/
def typed_ints : Parser (List Nat) := fun input =>
  match type_descriptor input with
  | .error e => .error e
  | .ok (td, rest) =>
    match td.kind with
    | .Missing => .ok ([], rest)
    | .Int32 => manyMN td.num_elements (mapP le_i32 intAsUsize) rest
    | .Int16 => manyMN td.num_elements (mapP le_i16 intAsUsize) rest
    | .Int8 => manyMN td.num_elements (mapP le_i8 intAsUsize) rest
    | _ => .error .panicked

/-- `TypedVec` (types.rs); float payloads are stored as raw bit patterns. -/
inductive TypedVec where
  | Missing
  | Int32 (values : List Int)
  | Float32 (bits : List Nat)
  | UString (bytes : List Nat)
  deriving DecidableEq, Repr

/-- `RawVec` (types.rs): undecoded byte slices tagged by kind. -/
inductive RawVec where
  | Missing
  | Int8 (bytes : List Nat)
  | Int16 (bytes : List Nat)
  | Int32 (bytes : List Nat)
  | Float32 (bytes : List Nat)
  | UString (bytes : List Nat)
  deriving DecidableEq, Repr

/-- `typed_vec_from_td` (parser.rs): decode the payload described by a
descriptor.  Narrow integers widen to i32 via `i32::from`; `Float32` is
read verbatim; `String` takes `num_elements` bytes via `split_at` (a panic
when the input is shorter); `Missing` consumes nothing. -/
def typed_vec_from_td (td : TypeDescriptor) : Parser TypedVec := fun input =>
  match td.kind with
  | .Missing => .ok (.Missing, input)
  | .Int8 => mapP (manyMN td.num_elements le_i8) TypedVec.Int32 input
  | .Int16 => mapP (manyMN td.num_elements le_i16) TypedVec.Int32 input
  | .Int32 => mapP (manyMN td.num_elements le_i32) TypedVec.Int32 input
  | .Float32 => mapP (manyMN td.num_elements le_f32) TypedVec.Float32 input
  | .String => mapP (splitAtPanic td.num_elements) TypedVec.UString input

/-- `typed_vec` (parser.rs): a descriptor followed by its payload. -/
def typed_vec : Parser TypedVec := fun input =>
  match type_descriptor input with
  | .error e => .error e
  | .ok (td, rest) => typed_vec_from_td td rest

/-- `raw_vec_from_td` (parser.rs): slice off the payload bytes undecoded.
Note the source stores a `Float32` payload in `RawVec::Int32` (parser.rs
line 153); this quirk is preserved. -/
def raw_vec_from_td (td : TypeDescriptor) : Parser RawVec := fun input =>
  match td.kind with
  | .Missing => .ok (.Missing, input)
  | .Int8 => mapP (splitAtPanic td.num_elements) RawVec.Int8 input
  | .Int16 => mapP (splitAtPanic (2 * td.num_elements)) RawVec.Int16 input
  | .Int32 => mapP (splitAtPanic (4 * td.num_elements)) RawVec.Int32 input
  | .Float32 => mapP (splitAtPanic (4 * td.num_elements)) RawVec.Int32 input
  | .String => mapP (splitAtPanic td.num_elements) RawVec.UString input

/-- Decode consecutive little-endian i16s; `none` when the length is odd
(the source's `assert!(input.is_empty())` after `many0(le_i16)` panics). -/
def decodeI16s : List Nat → Option (List Int)
  | [] => some []
  | [_] => none
  | b0 :: b1 :: rest => (decodeI16s rest).map (toSigned 16 (b0 % 256 + 256 * (b1 % 256)) :: ·)

/-- Decode consecutive little-endian i32s; `none` unless the length is a
multiple of 4. -/
def decodeI32s : List Nat → Option (List Int)
  | [] => some []
  | b0 :: b1 :: b2 :: b3 :: rest =>
      (decodeI32s rest).map
        (toSigned 32 (b0 % 256 + 256 * (b1 % 256) + 65536 * (b2 % 256) + 16777216 * (b3 % 256)) :: ·)
  | _ => none

/-- Decode consecutive little-endian f32 bit patterns; `none` unless the
length is a multiple of 4. -/
def decodeF32s : List Nat → Option (List Nat)
  | [] => some []
  | b0 :: b1 :: b2 :: b3 :: rest =>
      (decodeF32s rest).map
        ((b0 % 256 + 256 * (b1 % 256) + 65536 * (b2 % 256) + 16777216 * (b3 % 256)) :: ·)
  | _ => none

/-- `impl From<RawVec> for TypedVec` (types.rs): decode the retained bytes.
`Int8` first trims everything from the first `END_OF_VECTOR_INT_8` (`0x81`)
byte on; the other numeric kinds decode the whole slice and panic
(`assert!(input.is_empty())`) when trailing bytes remain. -/
def rawToTyped : RawVec → Except PErr TypedVec
  | .Missing => .ok .Missing
  | .Int8 bytes =>
      .ok (.Int32 ((bytes.takeWhile (fun b => b % 256 ≠ 0x81)).map (toSigned 8)))
  | .Int16 bytes =>
      match decodeI16s bytes with
      | some l => .ok (.Int32 l)
      | none => .error .panicked
  | .Int32 bytes =>
      match decodeI32s bytes with
      | some l => .ok (.Int32 l)
      | none => .error .panicked
  | .Float32 bytes =>
      match decodeF32s bytes with
      | some l => .ok (.Float32 l)
      | none => .error .panicked
  | .UString bytes => .ok (.UString bytes)

/-- `TypedVec::integer` (types.rs): the `unreachable!()` arm is a panic. -/
def TypedVec.integer : TypedVec → Except PErr (List Int)
  | .Int32 v => .ok v
  | _ => .error .panicked

/-- `TypedVec::float` (types.rs). -/
def TypedVec.float : TypedVec → Except PErr (List Nat)
  | .Float32 v => .ok v
  | _ => .error .panicked

/-- `TypedVec::flag` (types.rs): unconditionally `true`. -/
def TypedVec.flag (_ : TypedVec) : Bool := true

/-- `TypedVec::string` (types.rs): split the byte string at commas. -/
def TypedVec.string : TypedVec → Except PErr (List (List Nat))
  | .UString v => .ok (v.splitOn 44)
  | _ => .error .panicked

/-! ## Characterisation of the typed-payload decoders (claims C9, C10) -/

/-- The signed values of `n` consecutive little-endian 16-bit integers. -/
def i16sOf : Nat → List Nat → List Int
  | 0, _ => []
  | n + 1, b0 :: b1 :: input => toSigned 16 (b0 % 256 + 256 * (b1 % 256)) :: i16sOf n input
  | _ + 1, _ => []

/-- The signed values of `n` consecutive little-endian 32-bit integers. -/
def i32sOf : Nat → List Nat → List Int
  | 0, _ => []
  | n + 1, b0 :: b1 :: b2 :: b3 :: input =>
      toSigned 32 (b0 % 256 + 256 * (b1 % 256) + 65536 * (b2 % 256) + 16777216 * (b3 % 256)) ::
        i32sOf n input
  | _ + 1, _ => []

/-- The bit patterns of `n` consecutive little-endian 32-bit floats. -/
def f32sOf : Nat → List Nat → List Nat
  | 0, _ => []
  | n + 1, b0 :: b1 :: b2 :: b3 :: input =>
      (b0 % 256 + 256 * (b1 % 256) + 65536 * (b2 % 256) + 16777216 * (b3 % 256)) :: f32sOf n input
  | _ + 1, _ => []

theorem manyMN_le_i8 (n : Nat) :
    ∀ input : List Nat, n ≤ input.length →
      manyMN n le_i8 input = .ok ((input.take n).map (toSigned 8), input.drop n) := by
  induction n with
  | zero => intro input _; simp [manyMN]
  | succ n ih =>
    intro input h
    match input with
    | [] => simp at h
    | b :: rest =>
      have h' : n ≤ rest.length := by simpa using h
      simp [manyMN, le_i8, ih rest h']

theorem manyMN_le_i16 (n : Nat) :
    ∀ input : List Nat, 2 * n ≤ input.length →
      manyMN n le_i16 input = .ok (i16sOf n input, input.drop (2 * n)) := by
  induction n with
  | zero => intro input _; simp [manyMN, i16sOf]
  | succ n ih =>
    intro input h
    match input with
    | [] => simp [Nat.mul_succ] at h
    | [b0] => simp [Nat.mul_succ] at h
    | b0 :: b1 :: rest =>
      have h' : 2 * n ≤ rest.length := by simp [Nat.mul_succ] at h ⊢; omega
      have hd : (b0 :: b1 :: rest).drop (2 * (n + 1)) = rest.drop (2 * n) := by
        simp [Nat.mul_succ]
      simp [manyMN, le_i16, ih rest h', i16sOf, hd]

theorem manyMN_le_i32 (n : Nat) :
    ∀ input : List Nat, 4 * n ≤ input.length →
      manyMN n le_i32 input = .ok (i32sOf n input, input.drop (4 * n)) := by
  induction n with
  | zero => intro input _; simp [manyMN, i32sOf]
  | succ n ih =>
    intro input h
    match input with
    | [] => simp [Nat.mul_succ] at h
    | [b0] => simp [Nat.mul_succ] at h
    | [b0, b1] => simp [Nat.mul_succ] at h
    | [b0, b1, b2] => simp [Nat.mul_succ] at h
    | b0 :: b1 :: b2 :: b3 :: rest =>
      have h' : 4 * n ≤ rest.length := by simp [Nat.mul_succ] at h ⊢; omega
      have hd : (b0 :: b1 :: b2 :: b3 :: rest).drop (4 * (n + 1)) = rest.drop (4 * n) := by
        simp [Nat.mul_succ]
      simp [manyMN, le_i32, ih rest h', i32sOf, hd]

theorem manyMN_le_f32 (n : Nat) :
    ∀ input : List Nat, 4 * n ≤ input.length →
      manyMN n le_f32 input = .ok (f32sOf n input, input.drop (4 * n)) := by
  induction n with
  | zero => intro input _; simp [manyMN, f32sOf]
  | succ n ih =>
    intro input h
    match input with
    | [] => simp [Nat.mul_succ] at h
    | [b0] => simp [Nat.mul_succ] at h
    | [b0, b1] => simp [Nat.mul_succ] at h
    | [b0, b1, b2] => simp [Nat.mul_succ] at h
    | b0 :: b1 :: b2 :: b3 :: rest =>
      have h' : 4 * n ≤ rest.length := by simp [Nat.mul_succ] at h ⊢; omega
      have hd : (b0 :: b1 :: b2 :: b3 :: rest).drop (4 * (n + 1)) = rest.drop (4 * n) := by
        simp [Nat.mul_succ]
      simp [manyMN, le_f32, ih rest h', f32sOf, hd]

/-- C9: decoding a typed payload after its descriptor.  `Int8`/`Int16`
payloads widen to i32 preserving the signed value, `Int32` payloads decode
verbatim, `Float32` payloads decode verbatim as `num_elements` little-endian
f32 bit patterns, a `String` payload yields exactly `num_elements` bytes
unchanged, and a `Missing` descriptor yields the `Missing` variant for any
`num_elements` (consuming nothing). -/
theorem claim_C9_typed_vec_from_td (n : Nat) (input : List Nat) :
    (typed_vec_from_td ⟨.Missing, n⟩ input = .ok (.Missing, input)) ∧
    (n ≤ input.length →
      typed_vec_from_td ⟨.Int8, n⟩ input =
        .ok (.Int32 ((input.take n).map (toSigned 8)), input.drop n)) ∧
    (2 * n ≤ input.length →
      typed_vec_from_td ⟨.Int16, n⟩ input = .ok (.Int32 (i16sOf n input), input.drop (2 * n))) ∧
    (4 * n ≤ input.length →
      typed_vec_from_td ⟨.Int32, n⟩ input = .ok (.Int32 (i32sOf n input), input.drop (4 * n))) ∧
    (4 * n ≤ input.length →
      typed_vec_from_td ⟨.Float32, n⟩ input =
        .ok (.Float32 (f32sOf n input), input.drop (4 * n))) ∧
    (n ≤ input.length →
      typed_vec_from_td ⟨.String, n⟩ input = .ok (.UString (input.take n), input.drop n)) := by
  refine ⟨rfl, ?_, ?_, ?_, ?_, ?_⟩
  · intro h
    simp [typed_vec_from_td, mapP, manyMN_le_i8 n input h]
  · intro h
    simp [typed_vec_from_td, mapP, manyMN_le_i16 n input h]
  · intro h
    simp [typed_vec_from_td, mapP, manyMN_le_i32 n input h]
  · intro h
    simp [typed_vec_from_td, mapP, manyMN_le_f32 n input h]
  · intro h
    simp [typed_vec_from_td, mapP, splitAtPanic, h]

/-- C9 witness: the characterisation evaluated at `n = 1` on four bytes. -/
theorem claim_C9_typed_vec_from_td_witness :
    typed_vec_from_td ⟨.Int8, 1⟩ [255, 2, 3, 4] = .ok (.Int32 [-1], [2, 3, 4]) ∧
    typed_vec_from_td ⟨.Int16, 1⟩ [255, 2, 3, 4] = .ok (.Int32 [767], [3, 4]) ∧
    typed_vec_from_td ⟨.Float32, 1⟩ [1, 0, 192, 127] = .ok (.Float32 [0x7FC00001], []) ∧
    typed_vec_from_td ⟨.String, 2⟩ [65, 66, 67] = .ok (.UString [65, 66], [67]) := by
  have h := claim_C9_typed_vec_from_td 1 [255, 2, 3, 4]
  have h2 := claim_C9_typed_vec_from_td 1 [1, 0, 192, 127]
  have h3 := claim_C9_typed_vec_from_td 2 [65, 66, 67]
  refine ⟨?_, ?_, ?_, ?_⟩
  · rw [h.2.1 (by decide)]; rfl
  · rw [h.2.2.1 (by decide)]; rfl
  · rw [h2.2.2.2.2.1 (by decide)]; rfl
  · rw [h3.2.2.2.2.2 (by decide)]; rfl

/-- C10: the `TypedVec` accessors are partial — `integer()` returns the
contained values exactly on the `Int32` variant, `float()` exactly on
`Float32`, and `string()` exactly on `UString` (returning the comma-split
segments, byte 44 being `','`); every other variant reaches the
`unreachable!()` panic branch, and when the variant matches, that branch
is not reached. -/
theorem claim_C10_typedvec_accessors :
    (∀ l, TypedVec.integer (.Int32 l) = .ok l) ∧
    (∀ v : TypedVec, (∀ l, v ≠ .Int32 l) → v.integer = .error .panicked) ∧
    (∀ l, TypedVec.float (.Float32 l) = .ok l) ∧
    (∀ v : TypedVec, (∀ l, v ≠ .Float32 l) → v.float = .error .panicked) ∧
    (∀ l, TypedVec.string (.UString l) = .ok (l.splitOn 44)) ∧
    (∀ v : TypedVec, (∀ l, v ≠ .UString l) → v.string = .error .panicked) := by
  refine ⟨fun l => rfl, ?_, fun l => rfl, ?_, fun l => rfl, ?_⟩
  · intro v hv
    cases v with
    | Int32 l => exact absurd rfl (hv l)
    | _ => rfl
  · intro v hv
    cases v with
    | Float32 l => exact absurd rfl (hv l)
    | _ => rfl
  · intro v hv
    cases v with
    | UString l => exact absurd rfl (hv l)
    | _ => rfl

/-- C10 witness: the accessor laws at concrete values. -/
theorem claim_C10_typedvec_accessors_witness :
    TypedVec.integer (.Int32 [5]) = .ok [5] ∧
    TypedVec.integer .Missing = .error .panicked ∧
    TypedVec.float (.Float32 [1]) = .ok [1] ∧
    TypedVec.float (.Int32 [1]) = .error .panicked ∧
    TypedVec.string (.UString [65, 44, 66]) = .ok [[65], [66]] ∧
    TypedVec.string .Missing = .error .panicked := by
  have h := claim_C10_typedvec_accessors
  exact ⟨h.1 [5], h.2.1 .Missing (by intro l; simp),
    h.2.2.1 [1], h.2.2.2.1 (.Int32 [1]) (by intro l; simp),
    by rw [h.2.2.2.2.1 [65, 44, 66]]; rfl,
    h.2.2.2.2.2 .Missing (by intro l; simp)⟩

/-! ## Float sentinels (`src/types.rs`) and the qual decision -/

/-- `NAN_FLOAT` (types.rs). -/
def NAN_FLOAT : Nat := 0x7FC00000

/-- `MISSING_FLOAT` (types.rs). -/
def MISSING_FLOAT : Nat := 0x7F800001

/-- Modelled from the spec: `MISSING_QUAL` is imported by `parser.rs` and
`record/lazy.rs` from `types.rs`, but this snapshot of `types.rs` only
defines `MISSING_FLOAT`; the spec fixes the qual "missing" sentinel at the
f32 whose 32 bits equal `0x7F80_0001` (which is also `MISSING_FLOAT`). -/
def MISSING_QUAL : Nat := 0x7F800001

/-- The qual condition shared by `record_from_length` (parser.rs) and
`RawBcfRecord::qual` (record/lazy.rs):
`qual.is_nan() && qual.to_bits() & 0x0040_0000 != 0 || qual.to_bits() == MISSING_QUAL`
yields `None`, anything else `Some(qual)`. -/
def qualToOption (qual : Nat) : Option Nat :=
  if (f32_is_nan qual ∧ Nat.testBit qual 22) ∨ qual = MISSING_QUAL then none else some qual

/-- Rust's `u32` cast of a signed value (`v as u32`). -/
def intAsU32 (v : Int) : Nat := (v % (2 ^ 32 : Nat)).toNat

/-! ## Header model (the parts record accessors consult)

The Rust `Header` carries multimap metadata and full INFO/FORMAT/contig
tables; record accessors only consult the `FILTER` entries of the multimap,
the contig ids, and the two tag → idx reverse-lookup maps, so only those
are modelled here.  `HashMap::get` is modelled by first-match lookup in an
association list (a `HashMap` holds each key once). -/

/-- `HeaderValue` (types.rs), restricted to what `filters()` inspects:
the `Filter` variant's id, every other variant collapsed. -/
inductive HeaderValue where
  | Filter (id : String)
  | Other
  deriving DecidableEq, Repr

/-- The header fields consulted by record accessors.  `metaFILTER` is
`header.meta.get_vec("FILTER")` (`none` when the key is absent). -/
structure Header where
  metaFILTER : Option (List HeaderValue)
  contigs : List String
  info_tag_to_offset : List (String × Nat)
  format_tag_to_offset : List (String × Nat)
  deriving Repr

/-- `HashMap::get` on a tag → idx map. -/
def lookupTag (m : List (String × Nat)) (tag : String) : Option Nat :=
  (m.find? (fun kv => kv.1 = tag)).map (fun kv => kv.2)

/-! ## INFO and FORMAT field parsers (`src/parser.rs`) -/

/-- `raw_info_pair` (parser.rs): typed key (`assert_eq!(num_elements, 1)`),
then the value's descriptor and undecoded payload. -/
def raw_info_pair : Parser (Nat × RawVec) := do
  let td ← type_descriptor
  if td.num_elements = 1 then
    let key ← mapP (le_int td.kind) intAsUsize
    let td2 ← type_descriptor
    let data ← raw_vec_from_td td2
    Parser.pure (key, data)
  else Parser.fail .panicked

/-- `info_pair` (parser.rs): typed key, then the decoded `typed_vec`. -/
def info_pair : Parser (Nat × TypedVec) := do
  let td ← type_descriptor
  if td.num_elements = 1 then
    let key ← mapP (le_int td.kind) intAsUsize
    let data ← typed_vec
    Parser.pure (key, data)
  else Parser.fail .panicked

/-- `info` (parser.rs): `n_info as usize` INFO pairs. -/
def info (n_info : Int) : Parser (List (Nat × TypedVec)) :=
  manyMN (intAsUsize n_info) info_pair

/-- `genotype_field` (parser.rs): typed format key, one shared descriptor,
then `n_sample` decoded payloads of that type. -/
def genotype_field (n_sample : Nat) : Parser (Nat × List TypedVec) := do
  let fmt_key ← typed_int
  let data_type ← type_descriptor
  let vals ← manyMN n_sample (typed_vec_from_td data_type)
  Parser.pure (fmt_key, vals)

/-- `raw_genotype_field` (parser.rs): as `genotype_field`, payloads undecoded. -/
def raw_genotype_field (n_sample : Nat) : Parser (Nat × List RawVec) := do
  let fmt_key ← typed_int
  let data_type ← type_descriptor
  let vals ← manyMN n_sample (raw_vec_from_td data_type)
  Parser.pure (fmt_key, vals)

/-! ## Eager record (`src/record/eager.rs`, built by `record_from_length`) -/

/-- `BcfRecord` (record/eager.rs).  The `Rc<Header>` field is not embedded;
accessors that need the header take it as an argument. -/
structure BcfRecord where
  chrom : Nat
  pos : Nat
  id : Option (List Nat)
  ref_allele : List Nat
  alt_alleles : List (List Nat)
  qual : Option Nat
  filter : List Nat
  info : List (Nat × TypedVec)
  format : Option (List (Nat × List TypedVec))
  deriving Repr

/-- The FORMAT part of `record_from_length` (parser.rs): `n_fmt` genotype
fields when `l_indiv > 0`, `None` otherwise. -/
def formatParser (l_indiv n_fmt n_sample : Nat) :
    Parser (Option (List (Nat × List TypedVec))) :=
  if l_indiv > 0 then mapP (manyMN n_fmt (genotype_field n_sample)) some
  else Parser.pure none

/-- The struct-literal construction at the end of `record_from_length`
(parser.rs): `alleles[0]` panics when the allele list is empty;
`alt_alleles` is `alleles[1..]` when more than one allele is present. -/
def finishRecord (chrom pos : Int) (qual : Nat) (id : List Nat)
    (alleles : List (List Nat)) (filters : List Nat) (infoL : List (Nat × TypedVec))
    (format : Option (List (Nat × List TypedVec))) : Parser BcfRecord :=
  match alleles with
  | [] => Parser.fail .panicked
  | a0 :: _ =>
    Parser.pure
      { chrom := intAsU32 chrom
        pos := intAsU32 pos
        id := some id
        ref_allele := a0
        alt_alleles := if alleles.length > 1 then alleles.drop 1 else []
        qual := qualToOption qual
        filter := filters
        info := infoL
        format := format }

/-- `record_from_length` (parser.rs): fixed 24-byte prefix, id, `n_allele`
typed strings, filter indices, `n_info` INFO pairs, and — when `l_indiv > 0`
— `n_fmt` FORMAT fields. -/
def record_from_length (_l_shared l_indiv : Nat) : Parser BcfRecord := do
  let chrom ← le_i32
  let pos ← le_i32
  let _rlen ← le_i32
  let qual ← le_f32
  let n_info ← le_i16
  let n_allele ← le_i16
  let n_sample ← le_u24
  let n_fmt ← le_u8
  let id ← typed_string
  let alleles ← manyMN (intAsUsize n_allele) typed_string
  let filters ← typed_ints
  let infoList ← info n_info
  let format ← formatParser l_indiv n_fmt n_sample
  finishRecord chrom pos qual id alleles filters infoList format

/-- Resolve a list of filter indices to filter ids through the header's
`FILTER` multimap entries: `filters[i]` panics out of bounds, and a non-
`Filter` value hits `unreachable!()`.  Shared by the eager and lazy
`filters()` accessors (their bodies are identical in the source). -/
def filterNames (fs : List HeaderValue) : List Nat → Except PErr (List String)
  | [] => .ok []
  | i :: rest =>
    match fs.get? i with
    | some (HeaderValue.Filter id) =>
      match filterNames fs rest with
      | .ok l => .ok (id :: l)
      | .error e => .error e
    | some HeaderValue.Other => .error .panicked
    | none => .error .panicked

/-- `impl Record for BcfRecord`, `chrom` (record/eager.rs):
`&self.header.contigs[self.chrom as usize].id`. -/
def BcfRecord.getChrom (r : BcfRecord) (h : Header) : Except PErr String :=
  match h.contigs.get? r.chrom with
  | some c => .ok c
  | none => .error .panicked

/-- `impl Record for BcfRecord`, `pos` (record/eager.rs). -/
def BcfRecord.getPos (r : BcfRecord) : Nat := r.pos

/-- `impl Record for BcfRecord`, `ref_allele` (record/eager.rs). -/
def BcfRecord.getRefAllele (r : BcfRecord) : List Nat := r.ref_allele

/-- `impl Record for BcfRecord`, `alt_alleles` (record/eager.rs). -/
def BcfRecord.getAltAlleles (r : BcfRecord) : List (List Nat) := r.alt_alleles

/-- `impl Record for BcfRecord`, `qual` (record/eager.rs). -/
def BcfRecord.getQual (r : BcfRecord) : Option Nat := r.qual

/-- `impl Record for BcfRecord`, `filters` (record/eager.rs):
`self.header.meta.get_vec("FILTER").unwrap()`, then resolve each index. -/
def BcfRecord.getFilters (r : BcfRecord) (h : Header) : Except PErr (List String) :=
  match h.metaFILTER with
  | none => .error .panicked
  | some fs => filterNames fs r.filter

/-- `impl Record for BcfRecord`, `info` (record/eager.rs): `unimplemented!()`. -/
def BcfRecord.getInfo (_r : BcfRecord) (_h : Header) (_tag : String) :
    Except PErr (Option TypedVec) := .error .panicked

/-- `impl Record for BcfRecord`, `format` (record/eager.rs): `unimplemented!()`. -/
def BcfRecord.getFormat (_r : BcfRecord) (_h : Header) (_tag : String) :
    Except PErr (Option (List TypedVec)) := .error .panicked

/-! ## Lazy record (`src/record/lazy.rs`) -/

/-- `RawBcfRecord` (record/lazy.rs).  The Rust field `format` is named
`formatBytes` here because the accessor of the same name is also modelled;
the `Rc<Header>` field is passed to accessors explicitly. -/
structure RawBcfRecord where
  shared : List Nat
  formatBytes : List Nat
  allele_start_bytepos : Nat
  deriving Repr

/-- `RawBcfRecord::new` (record/lazy.rs): the allele list starts at the fixed
24-byte prefix plus the id typed-string (one descriptor byte plus its
`num_elements`); `assert_eq!(kind, TypeKind::String)` panics otherwise. -/
def RawBcfRecord.new (shared format : List Nat) : Except PErr RawBcfRecord :=
  match type_descriptor (shared.drop 24) with
  | .error _ => .error .panicked
  | .ok (td, _) =>
    if td.kind = .String then .ok ⟨shared, format, 24 + 1 + td.num_elements⟩
    else .error .panicked

/-- `RawBcfRecord::n_alleles` (record/lazy.rs): i16 at bytes 18..20 of
`shared`, `as usize`; out-of-bounds slicing panics. -/
def RawBcfRecord.n_alleles (r : RawBcfRecord) : Except PErr Nat :=
  match le_i16 ((r.shared.drop 18).take 2) with
  | .ok (v, _) => .ok (intAsUsize v)
  | .error _ => .error .panicked

/-- `RawBcfRecord::n_info` (record/lazy.rs): i16 at bytes 16..18 of `shared`. -/
def RawBcfRecord.n_info (r : RawBcfRecord) : Except PErr Nat :=
  match le_i16 ((r.shared.drop 16).take 2) with
  | .ok (v, _) => .ok (intAsUsize v)
  | .error _ => .error .panicked

/-- `RawBcfRecord::n_fmt_n_sample` (record/lazy.rs): u24 then u8 at byte 20
of `shared`; returns `(n_fmt, n_sample)`. -/
def RawBcfRecord.n_fmt_n_sample (r : RawBcfRecord) : Except PErr (Nat × Nat) :=
  match (do
      let ns ← le_u24
      let nf ← le_u8
      Parser.pure (ns, nf) : Parser (Nat × Nat)) (r.shared.drop 20) with
  | .ok ((ns, nf), _) => .ok (nf, ns)
  | .error _ => .error .panicked

/-- `RawBcfRecord::alleles` (record/lazy.rs): `n_alleles` typed strings from
the allele offset; also returns the byte position just past the alleles
(`shared.len() - remaining.len()`). -/
def RawBcfRecord.alleles (r : RawBcfRecord) : Except PErr (List (List Nat) × Nat) :=
  match r.n_alleles with
  | .error e => .error e
  | .ok n =>
    match manyMN n typed_string (r.shared.drop r.allele_start_bytepos) with
    | .error _ => .error .panicked
    | .ok (v, remaining) => .ok (v, r.shared.length - remaining.length)

/-- `impl Record for RawBcfRecord`, `chrom` (record/lazy.rs). -/
def RawBcfRecord.chrom (r : RawBcfRecord) (h : Header) : Except PErr String :=
  match le_i32 (r.shared.take 4) with
  | .error _ => .error .panicked
  | .ok (v, _) =>
    match h.contigs.get? (intAsUsize v) with
    | some c => .ok c
    | none => .error .panicked

/-- `impl Record for RawBcfRecord`, `pos` (record/lazy.rs): i32 at bytes
4..8, `as u32`. -/
def RawBcfRecord.pos (r : RawBcfRecord) : Except PErr Nat :=
  match le_i32 ((r.shared.drop 4).take 4) with
  | .error _ => .error .panicked
  | .ok (v, _) => .ok (intAsU32 v)

/-- `impl Record for RawBcfRecord`, `qual` (record/lazy.rs): f32 at bytes
12..16, with the missing-qual decision. -/
def RawBcfRecord.qual (r : RawBcfRecord) : Except PErr (Option Nat) :=
  match le_f32 ((r.shared.drop 12).take 4) with
  | .error _ => .error .panicked
  | .ok (v, _) => .ok (qualToOption v)

/-- `impl Record for RawBcfRecord`, `ref_allele` (record/lazy.rs). -/
def RawBcfRecord.ref_allele (r : RawBcfRecord) : Except PErr (List Nat) :=
  match typed_string (r.shared.drop r.allele_start_bytepos) with
  | .error _ => .error .panicked
  | .ok (v, _) => .ok v

/-- `impl Record for RawBcfRecord`, `alt_alleles` (record/lazy.rs): skip the
ref typed string, then `n_alleles - 1` more.  The `usize` subtraction
`n_allele - 1` panics on underflow (debug builds); in release builds it
wraps to `2^64 - 1` and `many_m_n` then fails on the finite input, so the
outcome is a panic either way. -/
def RawBcfRecord.alt_alleles (r : RawBcfRecord) : Except PErr (List (List Nat)) :=
  match r.n_alleles with
  | .error e => .error e
  | .ok n =>
    match typed_string (r.shared.drop r.allele_start_bytepos) with
    | .error _ => .error .panicked
    | .ok (_, rest) =>
      if n = 0 then .error .panicked
      else
        match manyMN (n - 1) typed_string rest with
        | .error _ => .error .panicked
        | .ok (v, _) => .ok v

/-- `impl Record for RawBcfRecord`, `filters` (record/lazy.rs). -/
def RawBcfRecord.filters (r : RawBcfRecord) (h : Header) : Except PErr (List String) :=
  match r.alleles with
  | .error e => .error e
  | .ok (_, byte_pos) =>
    match typed_ints (r.shared.drop byte_pos) with
    | .error _ => .error .panicked
    | .ok (ids, _) =>
      match h.metaFILTER with
      | none => .error .panicked
      | some fs => filterNames fs ids

/-- Convert each per-sample `RawVec` (types.rs `From<RawVec>`), stopping at
the first failure. -/
def rawsToTyped : List RawVec → Except PErr (List TypedVec)
  | [] => .ok []
  | v :: rest =>
    match rawToTyped v with
    | .error e => .error e
    | .ok tv =>
      match rawsToTyped rest with
      | .error e => .error e
      | .ok l => .ok (tv :: l)

/-- The lazy INFO walk of `RawBcfRecord::info` (record/lazy.rs): Rust
iterators are pulled lazily, so entries after the first match are never
parsed; when the tag is absent from the header, all `n_info` entries are
parsed (and unwrapped) before yielding `None`. -/
def infoScan (idxOpt : Option Nat) : Nat → List Nat → Except PErr (Option TypedVec)
  | 0, _ => .ok none
  | n + 1, input =>
    match raw_info_pair input with
    | .error _ => .error .panicked
    | .ok ((offset, data), rest) =>
      match idxOpt with
      | some idx =>
        if idx = offset then
          match rawToTyped data with
          | .ok tv => .ok (some tv)
          | .error e => .error e
        else infoScan idxOpt n rest
      | none => infoScan idxOpt n rest

/-- `impl Record for RawBcfRecord`, `info` (record/lazy.rs): skip alleles and
filters, then walk the `n_info` pairs for the tag's idx. -/
def RawBcfRecord.info (r : RawBcfRecord) (h : Header) (tag : String) :
    Except PErr (Option TypedVec) :=
  match r.alleles with
  | .error e => .error e
  | .ok (_, byte_pos) =>
    match typed_ints (r.shared.drop byte_pos) with
    | .error _ => .error .panicked
    | .ok (_, input) =>
      match r.n_info with
      | .error e => .error e
      | .ok n => infoScan (lookupTag h.info_tag_to_offset tag) n input

/-- The lazy FORMAT walk of `RawBcfRecord::format` (record/lazy.rs). -/
def fmtScan (idxOpt : Option Nat) (n_sample : Nat) :
    Nat → List Nat → Except PErr (Option (List TypedVec))
  | 0, _ => .ok none
  | n + 1, input =>
    match raw_genotype_field n_sample input with
    | .error _ => .error .panicked
    | .ok ((offset, data), rest) =>
      match idxOpt with
      | some idx =>
        if idx = offset then
          match rawsToTyped data with
          | .ok tvs => .ok (some tvs)
          | .error e => .error e
        else fmtScan idxOpt n_sample n rest
      | none => fmtScan idxOpt n_sample n rest

/-- `impl Record for RawBcfRecord`, `format` (record/lazy.rs): `None` when the
indiv bytes are empty, else walk the `n_fmt` FORMAT fields for the tag. -/
def RawBcfRecord.format (r : RawBcfRecord) (h : Header) (tag : String) :
    Except PErr (Option (List TypedVec)) :=
  if r.formatBytes.isEmpty then .ok none
  else
    match r.n_fmt_n_sample with
    | .error e => .error e
    | .ok (n_fmt, n_sample) =>
      fmtScan (lookupTag h.format_tag_to_offset tag) n_sample n_fmt r.formatBytes

/-- `Record::has_flag` (src/record.rs line 408): `self.info(tag).is_some()`.
The flattened record implementation in `src/record.rs` defines `info` with
exactly the body of `RawBcfRecord::info` (record/lazy.rs), so `has_flag` is
modelled on `RawBcfRecord`. -/
def RawBcfRecord.has_flag (r : RawBcfRecord) (h : Header) (tag : String) :
    Except PErr Bool :=
  match r.info h tag with
  | .ok o => .ok o.isSome
  | .error e => .error e

/-! ## Stream iterators (`src/reader.rs`) -/

/-- `raw_record_from_length` (parser.rs): split off `l_shared` then `l_indiv`
bytes (`split_at` panics when the input is shorter) and build the lazy
record. -/
def raw_record_from_length (l_shared l_indiv : Nat) : Parser RawBcfRecord := fun input =>
  if l_shared ≤ input.length then
    let rest := input.drop l_shared
    if l_indiv ≤ rest.length then
      match RawBcfRecord.new (input.take l_shared) (rest.take l_indiv) with
      | .ok r => .ok (r, rest.drop l_indiv)
      | .error e => .error e
    else .error .panicked
  else .error .panicked

/-- `impl Iterator for BcfRecords`, `next` (reader.rs): when `read_exact` on
the 8-byte length prefix fails (fewer than 8 bytes left) return `None`;
otherwise read `l_shared + l_indiv` bytes (`read_exact(..).unwrap()` panics
on truncation) and parse the record (`unwrap` panics on failure).  Returns
the yielded item together with the rest of the stream. -/
def BcfRecords.next (stream : List Nat) : Except PErr (Option (BcfRecord × List Nat)) :=
  if stream.length < 8 then .ok none
  else
    match (do
        let a ← le_u32
        let b ← le_u32
        Parser.pure (a, b) : Parser (Nat × Nat)) stream with
    | .error _ => .error .panicked
    | .ok ((l_shared, l_indiv), rest) =>
      if rest.length < l_shared + l_indiv then .error .panicked
      else
        match record_from_length l_shared l_indiv (rest.take (l_shared + l_indiv)) with
        | .error _ => .error .panicked
        | .ok (record, _) => .ok (some (record, rest.drop (l_shared + l_indiv)))

/-- `impl Iterator for RawBcfRecords`, `next` (reader.rs): same framing as
`BcfRecords::next`, building the lazy record. -/
def RawBcfRecords.next (stream : List Nat) : Except PErr (Option (RawBcfRecord × List Nat)) :=
  if stream.length < 8 then .ok none
  else
    match (do
        let a ← le_u32
        let b ← le_u32
        Parser.pure (a, b) : Parser (Nat × Nat)) stream with
    | .error _ => .error .panicked
    | .ok ((l_shared, l_indiv), rest) =>
      if rest.length < l_shared + l_indiv then .error .panicked
      else
        match raw_record_from_length l_shared l_indiv (rest.take (l_shared + l_indiv)) with
        | .error _ => .error .panicked
        | .ok (record, _) => .ok (some (record, rest.drop (l_shared + l_indiv)))

/-- C6 counterexample: on a stream holding only a 3-byte partial length
prefix, both iterators yield `.ok none` — the silent end-of-stream signal,
identical to the zero-byte case — rather than surfacing a truncation
error, refuting the claim that a 1..7-byte prefix is "a truncation error
surfaced to the caller, not a silent end of stream". -/
theorem claim_C6_counterexample :
    BcfRecords.next [1, 2, 3] = .ok none ∧ RawBcfRecords.next [1, 2, 3] = .ok none := by
  constructor <;> rfl

/-- C6 amended: whenever fewer than 8 bytes remain — zero (normal
end-of-stream) or a partial 1..7-byte prefix alike — `next()` yields no
record and surfaces no error. -/
theorem claim_C6_short_prefix (stream : List Nat) (h : stream.length < 8) :
    BcfRecords.next stream = .ok none ∧ RawBcfRecords.next stream = .ok none := by
  constructor <;> simp [BcfRecords.next, RawBcfRecords.next, h]

/-- C6 witness: the amended theorem on a concrete 3-byte stream. -/
theorem claim_C6_short_prefix_witness :
    BcfRecords.next [9, 9, 9] = .ok none ∧ RawBcfRecords.next [9, 9, 9] = .ok none :=
  claim_C6_short_prefix [9, 9, 9] (by decide)

/-- C8: for every record, header and tag, `has_flag` succeeds with `true`
exactly when `info` succeeds with a present value, and succeeds with
`false` exactly when `info` succeeds with an absent one — regardless of
the payload encoding (`TypedVec::flag` itself is unconditionally `true`). -/
theorem claim_C8_has_flag (r : RawBcfRecord) (h : Header) (tag : String) :
    (r.has_flag h tag = .ok true ↔ ∃ v, r.info h tag = .ok (some v)) ∧
    (r.has_flag h tag = .ok false ↔ r.info h tag = .ok none) ∧
    (∀ v : TypedVec, v.flag = true) := by
  refine ⟨?_, ?_, fun v => rfl⟩ <;> rw [RawBcfRecord.has_flag]
  · rcases hi : r.info h tag with e | o
    · simp
    · cases o <;> simp
  · rcases hi : r.info h tag with e | o
    · simp
    · cases o <;> simp

/-! ## Claim C2: the qual sentinel -/

/-- The raw 32 bits of the quality field: little-endian f32 at bytes 12..16
of the shared block. -/
def sharedQualBits (shared : List Nat) : Nat :=
  (shared.drop 12).getD 0 0 % 256 + 256 * ((shared.drop 12).getD 1 0 % 256) +
    65536 * ((shared.drop 12).getD 2 0 % 256) + 16777216 * ((shared.drop 12).getD 3 0 % 256)

theorem le_f32_take4 (ys : List Nat) (h : 4 ≤ ys.length) :
    le_f32 (ys.take 4) =
      .ok (ys.getD 0 0 % 256 + 256 * (ys.getD 1 0 % 256) + 65536 * (ys.getD 2 0 % 256) +
        16777216 * (ys.getD 3 0 % 256), []) := by
  match ys with
  | [] => simp at h
  | [b0] => simp at h
  | [b0, b1] => simp at h
  | [b0, b1, b2] => simp at h
  | b0 :: b1 :: b2 :: b3 :: rest => simp [le_f32]

/-- The condition under which the decoder treats a qual bit pattern as
missing: the sentinel `0x7F80_0001`, or any NaN with mantissa bit 22 set
(every quiet NaN, `0x7FC0_0000` included). -/
def qualMissingCond (bits : Nat) : Prop :=
  bits = MISSING_QUAL ∨ (f32_is_nan bits = true ∧ bits.testBit 22 = true)

instance (bits : Nat) : Decidable (qualMissingCond bits) := by
  unfold qualMissingCond; infer_instance

/-- C2 counterexample: a record whose raw qual bits are `0x7FC0_0000` — a
bit pattern different from `0x7F80_0001` — for which `qual()` nevertheless
returns `None`, refuting the claim that every pattern other than
`0x7F80_0001` decodes to `Some` of those bits. -/
theorem claim_C2_counterexample :
    (RustBcf.RawBcfRecord.new
        ([0, 0, 0, 0, 0, 0, 0, 0, 0, 0, 0, 0] ++ [0, 0, 192, 127] ++
          [0, 0, 0, 0, 0, 0, 0, 0] ++ [7]) []).bind RawBcfRecord.qual = .ok none ∧
    sharedQualBits
        ([0, 0, 0, 0, 0, 0, 0, 0, 0, 0, 0, 0] ++ [0, 0, 192, 127] ++
          [0, 0, 0, 0, 0, 0, 0, 0] ++ [7]) = 0x7FC00000 ∧
    (0x7FC00000 : Nat) ≠ MISSING_QUAL := by
  refine ⟨rfl, rfl, by decide⟩

/-- C2 amended: for every lazy record whose shared block reaches the qual
field, `qual()` returns `None` exactly when the raw 32 bits are the
sentinel `0x7F80_0001` **or** a NaN bit pattern with bit 22 set (which
covers every quiet NaN, `0x7FC0_0000` included); for every other bit
pattern it returns `Some` of exactly those bits. -/
theorem claim_C2_qual (r : RawBcfRecord) (bits : Nat)
    (hlen : 16 ≤ r.shared.length) (hbits : bits = sharedQualBits r.shared) :
    r.qual = .ok (qualToOption bits) ∧
    (qualToOption bits = none ↔ qualMissingCond bits) ∧
    (¬ qualMissingCond bits → qualToOption bits = some bits) := by
  have h4 : 4 ≤ (r.shared.drop 12).length := by
    simp only [List.length_drop]; omega
  have hq : r.qual = .ok (qualToOption bits) := by
    rw [RawBcfRecord.qual, le_f32_take4 (r.shared.drop 12) h4, hbits]
    rfl
  have hiff : ((f32_is_nan bits ∧ Nat.testBit bits 22) ∨ bits = MISSING_QUAL) ↔
      qualMissingCond bits := by
    rw [qualMissingCond]; tauto
  refine ⟨hq, ?_, ?_⟩
  · constructor
    · intro hnone
      rw [qualToOption] at hnone
      split_ifs at hnone with hcond
      exact hiff.mp hcond
    · intro hc
      rw [qualToOption, if_pos (hiff.mpr hc)]
  · intro hc
    rw [qualToOption, if_neg]
    intro hcond
    exact hc (hiff.mp hcond)

/-- C2 witness: the amended qual law at a record whose qual bits encode 1.0. -/
theorem claim_C2_qual_witness :
    (RawBcfRecord.mk ([0, 0, 0, 0, 0, 0, 0, 0, 0, 0, 0, 0] ++ [0, 0, 128, 63]) [] 0).qual =
      .ok (qualToOption 0x3F800000) ∧
    (qualToOption 0x3F800000 = none ↔ qualMissingCond 0x3F800000) ∧
    (¬ qualMissingCond 0x3F800000 → qualToOption 0x3F800000 = some 0x3F800000) :=
  claim_C2_qual (RawBcfRecord.mk ([0, 0, 0, 0, 0, 0, 0, 0, 0, 0, 0, 0] ++ [0, 0, 128, 63]) [] 0)
    0x3F800000 (by decide) (by decide)

/-! ## Parser-inversion infrastructure -/

theorem bind_ok {α β : Type} {p : Parser α} {f : α → Parser β} {input : List Nat}
    {out : β × List Nat} :
    (p >>= f) input = .ok out ↔
      ∃ a rest, p input = .ok (a, rest) ∧ f a rest = .ok out := by
  show Parser.bind p f input = .ok out ↔ _
  unfold Parser.bind
  rcases h : p input with e | ⟨a, rest⟩
  · simp
  · constructor
    · intro h'
      exact ⟨a, rest, rfl, h'⟩
    · rintro ⟨a1, r1, he, h'⟩
      injection he with he
      injection he with ha hr
      rw [ha, hr]
      exact h'

theorem pure_ok {α : Type} {a : α} {input : List Nat} {out : α × List Nat} :
    (Parser.pure a : Parser α) input = .ok out ↔ out = (a, input) := by
  unfold Parser.pure
  constructor
  · intro h; injection h with h; exact h.symm
  · intro h; rw [h]

theorem le_u8_rest {input : List Nat} {v : Nat} {rest : List Nat}
    (h : le_u8 input = .ok (v, rest)) : rest = input.drop 1 := by
  match input with
  | [] => simp [le_u8] at h
  | b :: r => simp [le_u8] at h; simp [h.2]

theorem le_i16_rest {input : List Nat} {v : Int} {rest : List Nat}
    (h : le_i16 input = .ok (v, rest)) : rest = input.drop 2 := by
  match input with
  | [] => simp [le_i16] at h
  | [b] => simp [le_i16] at h
  | b0 :: b1 :: r => simp [le_i16] at h; simp [h.2]

theorem le_u24_rest {input : List Nat} {v : Nat} {rest : List Nat}
    (h : le_u24 input = .ok (v, rest)) : rest = input.drop 3 := by
  match input with
  | [] => simp [le_u24] at h
  | [b] => simp [le_u24] at h
  | [b0, b1] => simp [le_u24] at h
  | b0 :: b1 :: b2 :: r => simp [le_u24] at h; simp [h.2]

theorem le_i32_rest {input : List Nat} {v : Int} {rest : List Nat}
    (h : le_i32 input = .ok (v, rest)) : rest = input.drop 4 := by
  match input with
  | [] => simp [le_i32] at h
  | [b] => simp [le_i32] at h
  | [b0, b1] => simp [le_i32] at h
  | [b0, b1, b2] => simp [le_i32] at h
  | b0 :: b1 :: b2 :: b3 :: r => simp [le_i32] at h; simp [h.2]

theorem le_f32_rest {input : List Nat} {v : Nat} {rest : List Nat}
    (h : le_f32 input = .ok (v, rest)) : rest = input.drop 4 := by
  match input with
  | [] => simp [le_f32] at h
  | [b] => simp [le_f32] at h
  | [b0, b1] => simp [le_f32] at h
  | [b0, b1, b2] => simp [le_f32] at h
  | b0 :: b1 :: b2 :: b3 :: r => simp [le_f32] at h; simp [h.2]

theorem manyMN_length {α : Type} {p : Parser α} :
    ∀ {n : Nat} {input : List Nat} {l : List α} {rest : List Nat},
      manyMN n p input = .ok (l, rest) → l.length = n := by
  intro n
  induction n with
  | zero =>
    intro input l rest h
    simp only [manyMN] at h
    injection h with h
    injection h with hl hr
    rw [← hl]
    rfl
  | succ n ih =>
    intro input l rest h
    simp only [manyMN] at h
    rcases h1 : p input with e | ⟨a, r1⟩ <;> simp only [h1] at h
    · exact Except.noConfusion h
    · rcases h2 : manyMN n p r1 with e | ⟨l', r2⟩ <;> simp only [h2] at h
      · exact Except.noConfusion h
      · injection h with h
        injection h with hl hr
        rw [← hl]
        simp [ih h2]

theorem manyMN_succ_inv {α : Type} {p : Parser α} {n : Nat} {input : List Nat}
    {l : List α} {rest : List Nat} (h : manyMN (n + 1) p input = .ok (l, rest)) :
    ∃ a r1 l', p input = .ok (a, r1) ∧ manyMN n p r1 = .ok (l', rest) ∧ l = a :: l' := by
  simp only [manyMN] at h
  rcases h1 : p input with e | ⟨a, r1⟩ <;> simp only [h1] at h
  · exact Except.noConfusion h
  · rcases h2 : manyMN n p r1 with e | ⟨l', r2⟩ <;> simp only [h2] at h
    · exact Except.noConfusion h
    · injection h with h
      injection h with hl hr
      exact ⟨a, r1, l', rfl, by rw [← hr]; exact h2, hl.symm⟩

theorem finishRecord_ok {chrom pos : Int} {qual : Nat} {id : List Nat}
    {alleles : List (List Nat)} {filters : List Nat} {infoL : List (Nat × TypedVec)}
    {fmt : Option (List (Nat × List TypedVec))} {input : List Nat}
    {er : BcfRecord} {rest : List Nat}
    (h : finishRecord chrom pos qual id alleles filters infoL fmt input = .ok (er, rest)) :
    ∃ a0 tail, alleles = a0 :: tail ∧ rest = input ∧
      er = { chrom := intAsU32 chrom, pos := intAsU32 pos, id := some id, ref_allele := a0,
             alt_alleles := if alleles.length > 1 then alleles.drop 1 else [],
             qual := qualToOption qual, filter := filters, info := infoL, format := fmt } := by
  cases alleles with
  | nil => exact absurd h (by simp [finishRecord, Parser.fail])
  | cons a0 tail =>
    simp only [finishRecord] at h
    rw [pure_ok] at h
    injection h with her hrest
    exact ⟨a0, tail, rfl, hrest, her⟩

/-! ## Claim C7: allele-count invariant of decoded records -/

/-- The `n_allele` field of a record's shared prefix — the i16 at byte 18 —
cast `as usize`, read directly off the wire. -/
def nAlleleOf (input : List Nat) : Option Nat :=
  match le_i16 (input.drop 18) with
  | .ok (v, _) => some (intAsUsize v)
  | .error _ => none

/-- The first typed string of the on-wire allele list: the list starts after
the 24-byte fixed prefix and the id typed-string. -/
def firstAlleleOf (input : List Nat) : Option (List Nat) :=
  match typed_string (input.drop 24) with
  | .error _ => none
  | .ok (_, rest) =>
    match typed_string rest with
    | .error _ => none
    | .ok (a, _) => some a

/-- C7: every successfully decoded record has `alt_alleles` of length
`n_allele - 1` (stated as `alt_alleles.length + 1 = n_allele`, which also
shows `n_allele ≥ 1`), and its `ref_allele` is the first typed string of
the on-wire allele list. -/
theorem claim_C7_alleles (l_shared l_indiv : Nat) (input : List Nat) (r : BcfRecord)
    (rest : List Nat) (h : record_from_length l_shared l_indiv input = .ok (r, rest)) :
    nAlleleOf input = some (r.getAltAlleles.length + 1) ∧
    firstAlleleOf input = some r.getRefAllele := by
  rw [record_from_length] at h
  rw [bind_ok] at h; obtain ⟨chrom, r1, h1, h⟩ := h
  rw [bind_ok] at h; obtain ⟨pos, r2, h2, h⟩ := h
  rw [bind_ok] at h; obtain ⟨rlen, r3, h3, h⟩ := h
  rw [bind_ok] at h; obtain ⟨qual, r4, h4, h⟩ := h
  rw [bind_ok] at h; obtain ⟨n_info, r5, h5, h⟩ := h
  rw [bind_ok] at h; obtain ⟨n_allele, r6, h6, h⟩ := h
  rw [bind_ok] at h; obtain ⟨n_sample, r7, h7, h⟩ := h
  rw [bind_ok] at h; obtain ⟨n_fmt, r8, h8, h⟩ := h
  rw [bind_ok] at h; obtain ⟨id, r9, h9, h⟩ := h
  rw [bind_ok] at h; obtain ⟨alleles, r10, h10, h⟩ := h
  rw [bind_ok] at h; obtain ⟨filters, r11, h11, h⟩ := h
  rw [bind_ok] at h; obtain ⟨infoL, r12, h12, h⟩ := h
  rw [bind_ok] at h; obtain ⟨fmt, r13, h13, h⟩ := h
  -- positions of the fixed-prefix reads
  have e1 : r1 = input.drop 4 := le_i32_rest h1
  have e2 : r2 = input.drop 8 := by rw [le_i32_rest h2, e1]; simp
  have e3 : r3 = input.drop 12 := by rw [le_i32_rest h3, e2]; simp
  have e4 : r4 = input.drop 16 := by rw [le_f32_rest h4, e3]; simp
  have e5 : r5 = input.drop 18 := by rw [le_i16_rest h5, e4]; simp
  have e6 : r6 = input.drop 20 := by rw [le_i16_rest h6, e5]; simp
  have e7 : r7 = input.drop 23 := by rw [le_u24_rest h7, e6]; simp
  have e8 : r8 = input.drop 24 := by rw [le_u8_rest h8, e7]; simp
  -- the record value itself
  have hlen : alleles.length = intAsUsize n_allele := manyMN_length h10
  obtain ⟨a0, tail, halleles, hrestEq, hr⟩ := finishRecord_ok h
  rw [halleles] at hlen hr h10
  have hlen' : tail.length + 1 = intAsUsize n_allele := by simpa using hlen
  constructor
  · rw [nAlleleOf, ← e5, h6, hr]
    have halt : (BcfRecord.getAltAlleles
        { chrom := intAsU32 chrom, pos := intAsU32 pos, id := some id, ref_allele := a0,
          alt_alleles := if (a0 :: tail).length > 1 then (a0 :: tail).drop 1 else [],
          qual := qualToOption qual, filter := filters, info := infoL,
          format := fmt }).length = tail.length := by
      rw [BcfRecord.getAltAlleles]
      match tail with
      | [] => simp
      | b :: tail' => simp
    rw [halt, hlen']
  · rw [← hlen'] at h10
    obtain ⟨a0', rA, l', hts, _, hcons⟩ := manyMN_succ_inv h10
    have ha0 : a0' = a0 := by
      injection hcons with ha0 _
      exact ha0.symm
    have hfa : firstAlleleOf input =
        match typed_string r9 with
        | .error _ => none
        | .ok (a, _) => some a := by
      rw [firstAlleleOf, ← e8, h9]
    rw [hfa, hts, ha0, hr]
    rfl

/-- A minimal one-record shared block: zero chrom/pos/rlen/qual, one INFO
field, one allele `"A"`, empty id, no filters, INFO pair `(key 0, Int8 1)`. -/
def c7input : List Nat :=
  [0, 0, 0, 0, 0, 0, 0, 0, 0, 0, 0, 0, 0, 0, 0, 0, 1, 0, 1, 0, 0, 0, 0, 0,
   7, 0x17, 65, 0, 0x11, 0, 0x11, 1]

/-- The eager record decoded from `c7input`. -/
def c7record : BcfRecord :=
  { chrom := 0, pos := 0, id := some [], ref_allele := [65], alt_alleles := [],
    qual := some 0, filter := [], info := [(0, .Int32 [1])], format := none }

/-- C7 witness: the allele invariant on the concrete record of `c7input`. -/
theorem claim_C7_alleles_witness :
    nAlleleOf c7input = some (c7record.getAltAlleles.length + 1) ∧
    firstAlleleOf c7input = some c7record.getRefAllele :=
  claim_C7_alleles 32 0 c7input c7record [] (by rfl)

/-! ## Claim C5: header IDX assignment (`src/types.rs`) -/

/-- `InfoNumber` (types.rs). -/
inductive InfoNumber where
  | Count (n : Nat)
  | Alleles
  | AlternateAlleles
  | Genotypes
  | Unknown
  deriving DecidableEq, Repr

/-- `InfoType` (types.rs). -/
inductive InfoType where
  | Integer
  | Float
  | Flag
  | Character
  | String
  deriving DecidableEq, Repr

/-- `InfoType::from_str` (derived `EnumString`); `.unwrap()` panics on any
other string.  (Named without the `InfoType` prefix because inside that
namespace `String` would resolve to the constructor.) -/
def infoType_from_str (s : String) : Except PErr InfoType :=
  if s = "Integer" then .ok .Integer
  else if s = "Float" then .ok .Float
  else if s = "Flag" then .ok .Flag
  else if s = "Character" then .ok .Character
  else if s = "String" then .ok .String
  else .error .panicked

/-- The value of a digit run. -/
def digitsToNat (cs : List Char) : Nat :=
  cs.foldl (fun acc c => acc * 10 + (c.toNat - 48)) 0

/-- `parse_usize` (parser.rs): `str::parse::<usize>().unwrap()` — the whole
string must be a non-empty digit run. -/
def parse_usize (s : String) : Except PErr Nat :=
  if s.data ≠ [] ∧ s.data.all Char.isDigit then .ok (digitsToNat s.data)
  else .error .panicked

/-- `info_number` (parser.rs): a digit run parses as `Count`; otherwise an
alphabetic run or `"."` selects the symbolic cardinality, anything else
panics. -/
def info_number (s : String) : Except PErr InfoNumber :=
  let digits := s.data.takeWhile Char.isDigit
  if digits ≠ [] then .ok (.Count (digitsToNat digits))
  else
    let alpha := s.data.takeWhile Char.isAlpha
    let tok : List Char :=
      if alpha ≠ [] then alpha
      else if s.data.take 1 = ['.'] then ['.']
      else []
    if tok = ['A'] then .ok .AlternateAlleles
    else if tok = ['R'] then .ok .Alleles
    else if tok = ['G'] then .ok .Genotypes
    else if tok = ['.'] then .ok .Unknown
    else .error .panicked

/-- `HashMap::get`/`remove` on the map collected from the key=value pairs of
one structured header line: the last occurrence of a key wins, as in
`HashMap::from_iter`. -/
def hmGetLast (l : List (String × String)) (k : String) : Option String :=
  ((l.filter (fun kv => kv.1 = k)).getLast?).map (fun kv => kv.2)

/-- `HeaderInfo` (types.rs). -/
structure HeaderInfo where
  id : String
  number : InfoNumber
  kind : InfoType
  description : String
  source : String
  version : String
  idx : Nat
  additional : List (String × String)
  deriving Repr

/-- `impl From<Vec<(&str, &str)>> for HeaderInfo` (types.rs): mandatory ID,
Number, Type, Description (`expect` panics when missing); optional Source
and Version default to `""`; **a missing IDX defaults to the string `"0"`**
(`h.remove("IDX").unwrap_or(&"0")`).  The `additional` map keeps the
remaining pairs (HashMap iteration order is not modelled). -/
def HeaderInfo.from (data : List (String × String)) : Except PErr HeaderInfo :=
  match hmGetLast data "ID" with
  | none => .error .panicked
  | some id =>
    match hmGetLast data "Number" with
    | none => .error .panicked
    | some num =>
      match info_number num with
      | .error _ => .error .panicked
      | .ok number =>
        match hmGetLast data "Type" with
        | none => .error .panicked
        | some ty =>
          match infoType_from_str ty with
          | .error _ => .error .panicked
          | .ok kind =>
            match hmGetLast data "Description" with
            | none => .error .panicked
            | some desc =>
              match parse_usize ((hmGetLast data "IDX").getD "0") with
              | .error _ => .error .panicked
              | .ok idx =>
                .ok { id := id, number := number, kind := kind, description := desc,
                      source := (hmGetLast data "Source").getD "",
                      version := (hmGetLast data "Version").getD "",
                      idx := idx,
                      additional := data.filter (fun kv =>
                        kv.1 ∉ ["ID", "Number", "Type", "Description", "Source", "Version",
                          "IDX"]) }

/-- `HeaderFormat` (types.rs). -/
structure HeaderFormat where
  id : String
  number : InfoNumber
  kind : InfoType
  description : String
  idx : Nat
  deriving Repr

/-- `impl From<Vec<(&str, &str)>> for HeaderFormat` (types.rs): as for
`HeaderInfo`, with a missing IDX defaulting to `"0"`. -/
def HeaderFormat.from (data : List (String × String)) : Except PErr HeaderFormat :=
  match hmGetLast data "ID" with
  | none => .error .panicked
  | some id =>
    match hmGetLast data "Number" with
    | none => .error .panicked
    | some num =>
      match info_number num with
      | .error _ => .error .panicked
      | .ok number =>
        match hmGetLast data "Type" with
        | none => .error .panicked
        | some ty =>
          match infoType_from_str ty with
          | .error _ => .error .panicked
          | .ok kind =>
            match hmGetLast data "Description" with
            | none => .error .panicked
            | some desc =>
              match parse_usize ((hmGetLast data "IDX").getD "0") with
              | .error _ => .error .panicked
              | .ok idx =>
                .ok { id := id, number := number, kind := kind, description := desc,
                      idx := idx }

/-- The key=value pairs of `##INFO=<ID=DP,Number=1,Type=Integer,...>` —
no IDX attribute. -/
def c5infoLine1 : List (String × String) :=
  [("ID", "DP"), ("Number", "1"), ("Type", "Integer"), ("Description", "depth")]

/-- The key=value pairs of a second, distinct INFO line without IDX. -/
def c5infoLine2 : List (String × String) :=
  [("ID", "AF"), ("Number", "A"), ("Type", "Float"), ("Description", "freq")]

/-- As `c5infoLine1`/`c5infoLine2`, for FORMAT lines. -/
def c5formatLine1 : List (String × String) :=
  [("ID", "GT"), ("Number", "1"), ("Type", "String"), ("Description", "genotype")]

def c5formatLine2 : List (String × String) :=
  [("ID", "DP"), ("Number", "1"), ("Type", "Integer"), ("Description", "depth")]

/-- C5: the code violates the claim — two distinct INFO (or FORMAT) header
lines carrying no IDX attribute are both assigned idx 0 (the parser
substitutes the literal string `"0"` for a missing IDX), so distinct lines
collide on the same handle instead of receiving dense sequential indices
0, 1, … as the claim (and the BCF specification) requires. -/
theorem claim_C5_idx_default_collides :
    (HeaderInfo.from c5infoLine1).map HeaderInfo.idx = .ok 0 ∧
    (HeaderInfo.from c5infoLine2).map HeaderInfo.idx = .ok 0 ∧
    c5infoLine1 ≠ c5infoLine2 ∧
    (HeaderFormat.from c5formatLine1).map HeaderFormat.idx = .ok 0 ∧
    (HeaderFormat.from c5formatLine2).map HeaderFormat.idx = .ok 0 ∧
    c5formatLine1 ≠ c5formatLine2 := by
  refine ⟨by decide, by decide, by decide, by decide, by decide, by decide⟩

/-! ## Claim C1: lazy/eager equivalence

The eager record parses the whole record buffer; the lazy record re-parses
slices of its `shared` buffer (`input.take l_shared`).  The bridge is
prefix-stability: every parser involved, run successfully on a list, returns
the same value on any extension of that list. -/

/-- `p` is prefix-stable: a successful parse is preserved, value intact, by
extending the input on the right. -/
def PrefixStable (p : Parser α) : Prop :=
  ∀ xs ys v rest, p xs = .ok (v, rest) → p (xs ++ ys) = .ok (v, rest ++ ys)

theorem ps_le_u8 : PrefixStable le_u8 := by
  intro xs ys v rest h
  match xs with
  | [] => simp [le_u8] at h
  | b :: t =>
    simp [le_u8] at h ⊢
    exact ⟨h.1, by rw [h.2]⟩

theorem ps_le_u16 : PrefixStable le_u16 := by
  intro xs ys v rest h
  match xs with
  | [] => simp [le_u16] at h
  | [b] => simp [le_u16] at h
  | b0 :: b1 :: t =>
    simp [le_u16] at h ⊢
    exact ⟨h.1, by rw [h.2]⟩

theorem ps_le_u32 : PrefixStable le_u32 := by
  intro xs ys v rest h
  match xs with
  | [] => simp [le_u32] at h
  | [b] => simp [le_u32] at h
  | [b0, b1] => simp [le_u32] at h
  | [b0, b1, b2] => simp [le_u32] at h
  | b0 :: b1 :: b2 :: b3 :: t =>
    simp [le_u32] at h ⊢
    exact ⟨h.1, by rw [h.2]⟩

theorem ps_le_i8 : PrefixStable le_i8 := by
  intro xs ys v rest h
  match xs with
  | [] => simp [le_i8] at h
  | b :: t =>
    simp [le_i8] at h ⊢
    exact ⟨h.1, by rw [h.2]⟩

theorem ps_le_i16 : PrefixStable le_i16 := by
  intro xs ys v rest h
  match xs with
  | [] => simp [le_i16] at h
  | [b] => simp [le_i16] at h
  | b0 :: b1 :: t =>
    simp [le_i16] at h ⊢
    exact ⟨h.1, by rw [h.2]⟩

theorem ps_le_i32 : PrefixStable le_i32 := by
  intro xs ys v rest h
  match xs with
  | [] => simp [le_i32] at h
  | [b] => simp [le_i32] at h
  | [b0, b1] => simp [le_i32] at h
  | [b0, b1, b2] => simp [le_i32] at h
  | b0 :: b1 :: b2 :: b3 :: t =>
    simp [le_i32] at h ⊢
    exact ⟨h.1, by rw [h.2]⟩

theorem ps_nomTake (n : Nat) : PrefixStable (nomTake n) := by
  intro xs ys v rest h
  rw [nomTake] at h ⊢
  split_ifs at h with hle
  · injection h with h
    injection h with hv hr
    rw [if_pos (show n ≤ (xs ++ ys).length by simp only [List.length_append]; omega)]
    rw [← hv, ← hr, List.take_append_of_le_length hle, List.drop_append_of_le_length hle]

theorem ps_read_uint (k : TypeKind) : PrefixStable (read_uint k) := by
  cases k with
  | Int8 => exact ps_le_u8
  | Int16 => exact ps_le_u16
  | Int32 => exact ps_le_u32
  | Missing => intro xs ys v rest h; exact absurd h (by simp [read_uint, Parser.fail])
  | Float32 => intro xs ys v rest h; exact absurd h (by simp [read_uint, Parser.fail])
  | String => intro xs ys v rest h; exact absurd h (by simp [read_uint, Parser.fail])

theorem ps_type_descriptor : PrefixStable type_descriptor := by
  intro xs
  induction xs with
  | nil => intro ys v rest h; exact absurd h (by simp [type_descriptor])
  | cons b tail ih =>
    intro ys v rest h
    simp only [List.cons_append]
    simp only [type_descriptor] at h ⊢
    by_cases h15 : (b / 16) % 16 = 15
    · rw [if_pos h15] at h ⊢
      rcases hn : type_descriptor tail with e | ⟨td, rest2⟩
      · rw [hn] at h; simp at h
      · rw [hn] at h
        rw [ih ys td rest2 hn]
        simp only at h ⊢
        by_cases h1 : td.num_elements = 1
        · rw [if_pos h1] at h ⊢
          rcases hru : read_uint td.kind rest2 with e | ⟨n, rest3⟩
          · rw [hru] at h; simp at h
          · rw [hru] at h
            rw [ps_read_uint td.kind rest2 ys n rest3 hru]
            rcases hk : TypeKind.tryFrom (b % 16) with _ | k <;> simp only [hk] at h ⊢
            · simp at h
            · injection h with h
              injection h with hv hr
              rw [← hv, ← hr]
        · rw [if_neg h1] at h; simp at h
    · rw [if_neg h15] at h ⊢
      rcases hk : TypeKind.tryFrom (b % 16) with _ | k <;> rw [hk] at h
      · simp at h
      · injection h with h
        injection h with hv hr
        rw [← hv, ← hr]

theorem ps_typed_string : PrefixStable typed_string := by
  intro xs ys v rest h
  rw [typed_string] at h ⊢
  rcases htd : type_descriptor xs with e | ⟨td, r1⟩ <;> simp only [htd] at h
  · exact Except.noConfusion h
  · rw [ps_type_descriptor xs ys td r1 htd]
    simp only
    by_cases hk : td.kind = .String
    · rw [if_pos hk] at h ⊢
      exact ps_nomTake td.num_elements r1 ys v rest h
    · rw [if_neg hk] at h
      exact Except.noConfusion h

theorem ps_mapP {p : Parser α} (f : α → β) (hp : PrefixStable p) :
    PrefixStable (mapP p f) := by
  intro xs ys v rest h
  rw [mapP] at h ⊢
  rcases h1 : p xs with e | ⟨a, r1⟩ <;> rw [h1] at h
  · exact Except.noConfusion h
  · rw [hp xs ys a r1 h1]
    injection h with h
    injection h with hv hr
    rw [← hv, ← hr]

theorem ps_manyMN {p : Parser α} (hp : PrefixStable p) (n : Nat) :
    PrefixStable (manyMN n p) := by
  induction n with
  | zero =>
    intro xs ys v rest h
    simp only [manyMN] at h ⊢
    injection h with h
    injection h with hv hr
    rw [← hv, ← hr]
  | succ n ih =>
    intro xs ys v rest h
    simp only [manyMN] at h ⊢
    rcases h1 : p xs with e | ⟨a, r1⟩ <;> simp only [h1] at h
    · exact Except.noConfusion h
    · rw [hp xs ys a r1 h1]
      simp only
      rcases h2 : manyMN n p r1 with e | ⟨l, r2⟩ <;> simp only [h2] at h
      · exact Except.noConfusion h
      · rw [ih r1 ys l r2 h2]
        injection h with h
        injection h with hv hr
        rw [← hv, ← hr]

theorem ps_typed_ints : PrefixStable typed_ints := by
  intro xs ys v rest h
  rw [typed_ints] at h ⊢
  rcases htd : type_descriptor xs with e | ⟨td, r1⟩ <;> simp only [htd] at h
  · exact Except.noConfusion h
  · rw [ps_type_descriptor xs ys td r1 htd]
    simp only
    rcases hkind : td.kind with _ | _ | _ | _ | _ | _ <;> simp only [hkind] at h ⊢
    · injection h with h
      injection h with hv hr
      rw [← hv, ← hr]
    · exact ps_manyMN (ps_mapP intAsUsize ps_le_i8) td.num_elements r1 ys v rest h
    · exact ps_manyMN (ps_mapP intAsUsize ps_le_i16) td.num_elements r1 ys v rest h
    · exact ps_manyMN (ps_mapP intAsUsize ps_le_i32) td.num_elements r1 ys v rest h
    · exact Except.noConfusion h
    · exact Except.noConfusion h

/-! ### Consumed-input lemmas: a successful parse's rest is a suffix -/

theorem le_u16_rest {input : List Nat} {v : Nat} {rest : List Nat}
    (h : le_u16 input = .ok (v, rest)) : rest = input.drop 2 := by
  match input with
  | [] => simp [le_u16] at h
  | [b] => simp [le_u16] at h
  | b0 :: b1 :: r => simp [le_u16] at h; simp [h.2]

theorem le_u32_rest {input : List Nat} {v : Nat} {rest : List Nat}
    (h : le_u32 input = .ok (v, rest)) : rest = input.drop 4 := by
  match input with
  | [] => simp [le_u32] at h
  | [b] => simp [le_u32] at h
  | [b0, b1] => simp [le_u32] at h
  | [b0, b1, b2] => simp [le_u32] at h
  | b0 :: b1 :: b2 :: b3 :: r => simp [le_u32] at h; simp [h.2]

/-- `p` only ever consumes a prefix: its rest is a drop of its input. -/
def DropsInput (p : Parser α) : Prop :=
  ∀ xs v rest, p xs = .ok (v, rest) → ∃ k, rest = xs.drop k

theorem ds_read_uint (k : TypeKind) : DropsInput (read_uint k) := by
  cases k with
  | Int8 => exact fun xs v rest h => ⟨1, le_u8_rest h⟩
  | Int16 => exact fun xs v rest h => ⟨2, le_u16_rest h⟩
  | Int32 => exact fun xs v rest h => ⟨4, le_u32_rest h⟩
  | Missing => intro xs v rest h; exact absurd h (by simp [read_uint, Parser.fail])
  | Float32 => intro xs v rest h; exact absurd h (by simp [read_uint, Parser.fail])
  | String => intro xs v rest h; exact absurd h (by simp [read_uint, Parser.fail])

theorem ds_type_descriptor : DropsInput type_descriptor := by
  intro xs
  induction xs with
  | nil => intro v rest h; exact absurd h (by simp [type_descriptor])
  | cons b tail ih =>
    intro v rest h
    simp only [type_descriptor] at h
    by_cases h15 : (b / 16) % 16 = 15
    · rw [if_pos h15] at h
      rcases hn : type_descriptor tail with e | ⟨td, rest2⟩ <;> simp only [hn] at h
      · exact Except.noConfusion h
      · by_cases h1 : td.num_elements = 1
        · rw [if_pos h1] at h
          rcases hru : read_uint td.kind rest2 with e | ⟨n, rest3⟩ <;> simp only [hru] at h
          · exact Except.noConfusion h
          · rcases hk : TypeKind.tryFrom (b % 16) with _ | k <;> simp only [hk] at h
            · exact Except.noConfusion h
            · injection h with h
              injection h with hv hr
              obtain ⟨k1, hk1⟩ := ih td rest2 hn
              obtain ⟨k2, hk2⟩ := ds_read_uint td.kind rest2 n rest3 hru
              refine ⟨1 + k1 + k2, ?_⟩
              rw [← hr, hk2, hk1, List.drop_drop]
              have he : 1 + k1 + k2 = (k2 + k1) + 1 := by omega
              rw [he, List.drop_succ_cons]
              congr 1
              omega
        · rw [if_neg h1] at h
          exact Except.noConfusion h
    · rw [if_neg h15] at h
      rcases hk : TypeKind.tryFrom (b % 16) with _ | k <;> simp only [hk] at h
      · exact Except.noConfusion h
      · injection h with h
        injection h with hv hr
        exact ⟨1, by rw [← hr]; rfl⟩

theorem ds_typed_string : DropsInput typed_string := by
  intro xs v rest h
  rw [typed_string] at h
  rcases htd : type_descriptor xs with e | ⟨td, r1⟩ <;> simp only [htd] at h
  · exact Except.noConfusion h
  · by_cases hk : td.kind = .String
    · rw [if_pos hk, nomTake] at h
      by_cases hle : td.num_elements ≤ r1.length
      · rw [if_pos hle] at h
        injection h with h
        injection h with hv hr
        obtain ⟨k1, hk1⟩ := ds_type_descriptor xs td r1 htd
        refine ⟨k1 + td.num_elements, ?_⟩
        rw [← hr, hk1, List.drop_drop]
      · rw [if_neg hle] at h
        exact Except.noConfusion h
    · rw [if_neg hk] at h
      exact Except.noConfusion h

theorem ds_manyMN {p : Parser α} (hp : DropsInput p) (n : Nat) : DropsInput (manyMN n p) := by
  induction n with
  | zero =>
    intro xs v rest h
    simp only [manyMN] at h
    injection h with h
    injection h with hv hr
    exact ⟨0, by rw [← hr]; rfl⟩
  | succ n ih =>
    intro xs v rest h
    simp only [manyMN] at h
    rcases h1 : p xs with e | ⟨a, r1⟩ <;> simp only [h1] at h
    · exact Except.noConfusion h
    · rcases h2 : manyMN n p r1 with e | ⟨l, r2⟩ <;> simp only [h2] at h
      · exact Except.noConfusion h
      · injection h with h
        injection h with hv hr
        obtain ⟨k1, hk1⟩ := hp xs a r1 h1
        obtain ⟨k2, hk2⟩ := ih r1 l r2 h2
        refine ⟨k1 + k2, ?_⟩
        rw [← hr, hk2, hk1, List.drop_drop]

/-- If `rest` is a drop of `xs`, then dropping `xs.length - rest.length`
recovers `rest` — the `shared.len() - remaining.len()` bookkeeping of
`RawBcfRecord::alleles`. -/
theorem drop_length_sub_of_drop {xs rest : List Nat} (k : Nat) (h : rest = xs.drop k) :
    xs.drop (xs.length - rest.length) = rest := by
  subst h
  rcases le_or_lt k xs.length with hk | hk
  · rw [List.length_drop]
    congr 1
    omega
  · rw [List.drop_eq_nil_of_le (le_of_lt hk)]
    simp

/-! ### Take-agreement: the lazy record's slices versus the full buffer -/

/-- A window of `m` bytes at offset `k` that lies inside `input.take l` is
the same window of `input`. -/
theorem take_window_agree (input : List Nat) (l k m : Nat)
    (h : k + m ≤ (input.take l).length) :
    ((input.take l).drop k).take m = (input.drop k).take m := by
  rw [List.drop_take, List.take_take]
  congr 1
  rw [List.length_take] at h
  omega

theorem le_i32_val_take {ys : List Nat} {v : Int} {r : List Nat}
    (h : le_i32 ys = .ok (v, r)) : le_i32 (ys.take 4) = .ok (v, []) := by
  match ys with
  | [] => simp [le_i32] at h
  | [b] => simp [le_i32] at h
  | [b0, b1] => simp [le_i32] at h
  | [b0, b1, b2] => simp [le_i32] at h
  | b0 :: b1 :: b2 :: b3 :: t =>
    simp [le_i32] at h ⊢
    exact h.1

theorem le_i32_take_len {zs : List Nat} {v : Int} {r : List Nat}
    (h : le_i32 (zs.take 4) = .ok (v, r)) : 4 ≤ zs.length := by
  match zs with
  | [] => simp [le_i32] at h
  | [b] => simp [le_i32] at h
  | [b0, b1] => simp [le_i32] at h
  | [b0, b1, b2] => simp [le_i32] at h
  | b0 :: b1 :: b2 :: b3 :: t => simp

theorem le_i16_val_take {ys : List Nat} {v : Int} {r : List Nat}
    (h : le_i16 ys = .ok (v, r)) : le_i16 (ys.take 2) = .ok (v, []) := by
  match ys with
  | [] => simp [le_i16] at h
  | [b] => simp [le_i16] at h
  | b0 :: b1 :: t =>
    simp [le_i16] at h ⊢
    exact h.1

theorem le_i16_take_len {zs : List Nat} {v : Int} {r : List Nat}
    (h : le_i16 (zs.take 2) = .ok (v, r)) : 2 ≤ zs.length := by
  match zs with
  | [] => simp [le_i16] at h
  | [b] => simp [le_i16] at h
  | b0 :: b1 :: t => simp

theorem le_f32_val_take {ys : List Nat} {v : Nat} {r : List Nat}
    (h : le_f32 ys = .ok (v, r)) : le_f32 (ys.take 4) = .ok (v, []) := by
  match ys with
  | [] => simp [le_f32] at h
  | [b] => simp [le_f32] at h
  | [b0, b1] => simp [le_f32] at h
  | [b0, b1, b2] => simp [le_f32] at h
  | b0 :: b1 :: b2 :: b3 :: t =>
    simp [le_f32] at h ⊢
    exact h.1

theorem le_f32_take_len {zs : List Nat} {v : Nat} {r : List Nat}
    (h : le_f32 (zs.take 4) = .ok (v, r)) : 4 ≤ zs.length := by
  match zs with
  | [] => simp [le_f32] at h
  | [b] => simp [le_f32] at h
  | [b0, b1] => simp [le_f32] at h
  | [b0, b1, b2] => simp [le_f32] at h
  | b0 :: b1 :: b2 :: b3 :: t => simp

/-- `input.drop k` extends `(input.take l).drop k` on the right. -/
theorem take_drop_prefix (input : List Nat) (l k : Nat) :
    ∃ ys, input.drop k = (input.take l).drop k ++ ys := by
  refine ⟨(input.drop k).drop (l - k), ?_⟩
  rw [List.drop_take]
  exact (List.take_append_drop (l - k) (input.drop k)).symm

/-- When the lazy `as usize` cast of an i32 resolves to a small index, the
eager `as u32` cast agrees with it (for a negative i32 the `usize` cast is
at least `2^64 - 2^31`, so it cannot index a small contig table). -/
theorem intAsU32_eq_intAsUsize (v : Int) (hsmall : intAsUsize v < 2 ^ 31) :
    intAsU32 v = intAsUsize v := by
  unfold intAsU32 intAsUsize at *
  omega

/-- C1 amended: whenever both decoders succeed on a record whose id
typed-string uses the immediate-count descriptor form (high nibble of the
byte at offset 24 ≠ 15 — `RawBcfRecord::new` mis-computes the allele offset
for the long form) and the header's contig table is of sane size, every
accessor value the lazy record successfully produces — pos, chrom, qual,
ref_allele, alt_alleles, filters — equals the eager record's; the eager
`info` and `format` accessors are `unimplemented!()` and always panic, so
the claimed equivalence cannot hold for them. -/
theorem claim_C1_lazy_eager (h : Header) (tag : String) (l_shared l_indiv : Nat)
    (input : List Nat) (er : BcfRecord) (restE : List Nat) (lr : RawBcfRecord)
    (hctg : h.contigs.length < 2 ^ 31)
    (hE : record_from_length l_shared l_indiv input = .ok (er, restE))
    (hL : RawBcfRecord.new (input.take l_shared) ((input.drop l_shared).take l_indiv) = .ok lr)
    (hshort : ((input.take l_shared).drop 24).headD 0 / 16 % 16 ≠ 15) :
    (∀ p, lr.pos = .ok p → er.getPos = p) ∧
    (∀ c, lr.chrom h = .ok c → er.getChrom h = .ok c) ∧
    (∀ q, lr.qual = .ok q → er.getQual = q) ∧
    (∀ a, lr.ref_allele = .ok a → er.getRefAllele = a) ∧
    (∀ l, lr.alt_alleles = .ok l → er.getAltAlleles = l) ∧
    (∀ fs, lr.filters h = .ok fs → er.getFilters h = .ok fs) ∧
    er.getInfo h tag = .error .panicked ∧
    er.getFormat h tag = .error .panicked := by
  -- eager parse destructuring
  rw [record_from_length] at hE
  rw [bind_ok] at hE; obtain ⟨chrom, r1, h1, hE⟩ := hE
  rw [bind_ok] at hE; obtain ⟨pos, r2, h2, hE⟩ := hE
  rw [bind_ok] at hE; obtain ⟨rlen, r3, h3, hE⟩ := hE
  rw [bind_ok] at hE; obtain ⟨qual, r4, h4, hE⟩ := hE
  rw [bind_ok] at hE; obtain ⟨n_info, r5, h5, hE⟩ := hE
  rw [bind_ok] at hE; obtain ⟨n_allele, r6, h6, hE⟩ := hE
  rw [bind_ok] at hE; obtain ⟨n_sample, r7, h7, hE⟩ := hE
  rw [bind_ok] at hE; obtain ⟨n_fmt, r8, h8, hE⟩ := hE
  rw [bind_ok] at hE; obtain ⟨id, r9, h9, hE⟩ := hE
  rw [bind_ok] at hE; obtain ⟨alleles, r10, h10, hE⟩ := hE
  rw [bind_ok] at hE; obtain ⟨filterIds, r11, h11, hE⟩ := hE
  rw [bind_ok] at hE; obtain ⟨infoL, r12, h12, hE⟩ := hE
  rw [bind_ok] at hE; obtain ⟨fmt, r13, h13, hE⟩ := hE
  have e1 : r1 = input.drop 4 := le_i32_rest h1
  have e2 : r2 = input.drop 8 := by rw [le_i32_rest h2, e1]; simp
  have e3 : r3 = input.drop 12 := by rw [le_i32_rest h3, e2]; simp
  have e4 : r4 = input.drop 16 := by rw [le_f32_rest h4, e3]; simp
  have e5 : r5 = input.drop 18 := by rw [le_i16_rest h5, e4]; simp
  have e6 : r6 = input.drop 20 := by rw [le_i16_rest h6, e5]; simp
  have e7 : r7 = input.drop 23 := by rw [le_u24_rest h7, e6]; simp
  have e8 : r8 = input.drop 24 := by rw [le_u8_rest h8, e7]; simp
  have hlenA : alleles.length = intAsUsize n_allele := manyMN_length h10
  obtain ⟨a0, tailA, halleles, hrestEq, her⟩ := finishRecord_ok hE
  rw [halleles] at hlenA her h10
  have hlenA' : tailA.length + 1 = intAsUsize n_allele := by simpa using hlenA
  -- lazy construction destructuring
  rw [RawBcfRecord.new] at hL
  rcases hLtd : type_descriptor ((input.take l_shared).drop 24) with e | ⟨tdL, rL⟩ <;>
    simp only [hLtd] at hL
  · exact Except.noConfusion hL
  · by_cases hLk : tdL.kind = TypeKind.String
    swap
    · rw [if_neg hLk] at hL
      exact Except.noConfusion hL
    · rw [if_pos hLk] at hL
      injection hL with hL
      -- transfer the id descriptor to the full buffer
      obtain ⟨ys24, hys24⟩ := take_drop_prefix input l_shared 24
      have htd_input : type_descriptor (input.drop 24) = .ok (tdL, rL ++ ys24) := by
        rw [hys24]
        exact ps_type_descriptor _ ys24 _ _ hLtd
      -- the id typed-string of the eager parse
      rw [typed_string] at h9
      rw [e8] at h9
      rw [htd_input] at h9
      simp only [if_pos hLk, nomTake] at h9
      by_cases hle9 : tdL.num_elements ≤ (rL ++ ys24).length
      swap
      · rw [if_neg hle9] at h9; exact Except.noConfusion h9
      · rw [if_pos hle9] at h9
        injection h9 with h9
        injection h9 with hid hr9
        -- short-form descriptor: the id region is exactly 1 + n bytes
        rcases hsd : (input.take l_shared).drop 24 with _ | ⟨b, t⟩
        · rw [hsd] at hLtd; exact absurd hLtd (by simp [type_descriptor])
        · have hb15 : b / 16 % 16 ≠ 15 := by
            rw [hsd] at hshort; simpa using hshort
          rw [hsd] at hLtd
          simp only [type_descriptor] at hLtd
          rw [if_neg hb15] at hLtd
          rcases hbk : TypeKind.tryFrom (b % 16) with _ | k <;> simp only [hbk] at hLtd
          · exact Except.noConfusion hLtd
          · injection hLtd with hLtd
            injection hLtd with htd hrL
            have hrL25 : rL = (input.take l_shared).drop 25 := by
              have ht0 : ((input.take l_shared).drop 24).tail = (input.take l_shared).drop 25 :=
                List.tail_drop _ _
              rw [← ht0, hsd, ← hrL]
              rfl
            have hin25 : rL ++ ys24 = input.drop 25 := by
              have ht1 : (input.drop 24).tail = input.drop 25 := List.tail_drop _ _
              rw [← ht1, hys24, hsd, ← hrL]
              rfl
            have hr9' : r9 = input.drop (24 + 1 + tdL.num_elements) := by
              rw [← hr9, hin25, List.drop_drop]
            -- fix the record and the lazy struct
            subst her
            subst hL
            refine ⟨?_, ?_, ?_, ?_, ?_, ?_, rfl, rfl⟩
            -- pos
            · intro p hp
              simp only [RawBcfRecord.pos] at hp
              rcases hw : le_i32 (((input.take l_shared).drop 4).take 4) with e | ⟨w, rw4⟩ <;>
                simp only [hw] at hp
              · exact Except.noConfusion hp
              · injection hp with hp
                have hl4 : 4 ≤ ((input.take l_shared).drop 4).length := le_i32_take_len hw
                have hwin : ((input.take l_shared).drop 4).take 4 = (input.drop 4).take 4 := by
                  apply take_window_agree
                  rw [List.length_drop] at hl4
                  omega
                have hev : le_i32 ((input.drop 4).take 4) = .ok (pos, []) :=
                  le_i32_val_take (e1 ▸ h2)
                rw [hwin, hev] at hw
                injection hw with hw
                injection hw with hw hwr
                rw [BcfRecord.getPos, ← hp, hw]
            -- chrom
            · intro c hc
              simp only [RawBcfRecord.chrom] at hc
              rcases hw : le_i32 ((input.take l_shared).take 4) with e | ⟨w, rw4⟩ <;>
                simp only [hw] at hc
              · exact Except.noConfusion hc
              · rcases hg : h.contigs.get? (intAsUsize w) with _ | c' <;> simp only [hg] at hc
                · exact Except.noConfusion hc
                · injection hc with hc
                  have hl4 : 4 ≤ (input.take l_shared).length := le_i32_take_len hw
                  have hwin : (input.take l_shared).take 4 = input.take 4 := by
                    rw [List.take_take]
                    congr 1
                    rw [List.length_take] at hl4
                    omega
                  have hev : le_i32 (input.take 4) = .ok (chrom, []) := le_i32_val_take h1
                  rw [hwin, hev] at hw
                  injection hw with hw
                  injection hw with hw hwr
                  subst hw
                  have hlt : intAsUsize chrom < h.contigs.length := by
                    rcases List.get?_eq_some.mp hg with ⟨hlt, _⟩
                    exact hlt
                  have hcast : intAsU32 chrom = intAsUsize chrom :=
                    intAsU32_eq_intAsUsize chrom (lt_trans hlt hctg)
                  rw [BcfRecord.getChrom]
                  simp only [hcast, hg]
                  rw [hc]
            -- qual
            · intro q hq
              simp only [RawBcfRecord.qual] at hq
              rcases hw : le_f32 (((input.take l_shared).drop 12).take 4) with e | ⟨w, rw4⟩ <;>
                simp only [hw] at hq
              · exact Except.noConfusion hq
              · injection hq with hq
                have hl4 : 4 ≤ ((input.take l_shared).drop 12).length := le_f32_take_len hw
                have hwin : ((input.take l_shared).drop 12).take 4 = (input.drop 12).take 4 := by
                  apply take_window_agree
                  rw [List.length_drop] at hl4
                  omega
                have hev : le_f32 ((input.drop 12).take 4) = .ok (qual, []) :=
                  le_f32_val_take (e3 ▸ h4)
                rw [hwin, hev] at hw
                injection hw with hw
                injection hw with hw hwr
                rw [BcfRecord.getQual, ← hq, hw]
            -- ref_allele
            · intro a ha
              simp only [RawBcfRecord.ref_allele] at ha
              rcases hts : typed_string
                  ((input.take l_shared).drop (24 + 1 + tdL.num_elements)) with e | ⟨v, rr⟩ <;>
                simp only [hts] at ha
              · exact Except.noConfusion ha
              · injection ha with ha
                obtain ⟨ysA, hysA⟩ := take_drop_prefix input l_shared (24 + 1 + tdL.num_elements)
                have hts_in : typed_string (input.drop (24 + 1 + tdL.num_elements)) =
                    .ok (v, rr ++ ysA) := by
                  rw [hysA]
                  exact ps_typed_string _ ysA _ _ hts
                rw [← hlenA'] at h10
                obtain ⟨a0', rA, l', htsE, hmtail, hcons⟩ := manyMN_succ_inv h10
                rw [hr9'] at htsE
                rw [htsE] at hts_in
                injection hts_in with hts_in
                injection hts_in with hv hrr
                injection hcons with hc1 hc2
                rw [BcfRecord.getRefAllele, ← ha, ← hv, hc1]
            -- alt_alleles
            · intro l hl
              simp only [RawBcfRecord.alt_alleles, RawBcfRecord.n_alleles] at hl
              rcases hw16 : le_i16 (((input.take l_shared).drop 18).take 2) with e | ⟨w16, rw16⟩ <;>
                simp only [hw16] at hl
              · exact Except.noConfusion hl
              · rcases hts : typed_string
                    ((input.take l_shared).drop (24 + 1 + tdL.num_elements)) with e | ⟨aL, restL⟩ <;>
                  simp only [hts] at hl
                · exact Except.noConfusion hl
                · by_cases hz : intAsUsize w16 = 0
                  · rw [if_pos hz] at hl
                    exact Except.noConfusion hl
                  · rw [if_neg hz] at hl
                    rcases hm : manyMN (intAsUsize w16 - 1) typed_string restL with e | ⟨vL, rrL⟩ <;>
                      simp only [hm] at hl
                    · exact Except.noConfusion hl
                    · injection hl with hl
                      have h20 : 2 ≤ ((input.take l_shared).drop 18).length := le_i16_take_len hw16
                      have hwin : ((input.take l_shared).drop 18).take 2 =
                          (input.drop 18).take 2 := by
                        apply take_window_agree
                        rw [List.length_drop] at h20
                        omega
                      have hev : le_i16 ((input.drop 18).take 2) = .ok (n_allele, []) :=
                        le_i16_val_take (e5 ▸ h6)
                      rw [hwin, hev] at hw16
                      injection hw16 with hw16
                      injection hw16 with hw16 hw16r
                      subst hw16
                      obtain ⟨ysA, hysA⟩ := take_drop_prefix input l_shared
                        (24 + 1 + tdL.num_elements)
                      have hts_in : typed_string (input.drop (24 + 1 + tdL.num_elements)) =
                          .ok (aL, restL ++ ysA) := by
                        rw [hysA]
                        exact ps_typed_string _ ysA _ _ hts
                      have hm_in : manyMN (intAsUsize n_allele - 1) typed_string (restL ++ ysA) =
                          .ok (vL, rrL ++ ysA) := ps_manyMN ps_typed_string _ _ _ _ _ hm
                      rw [← hlenA'] at h10
                      obtain ⟨a0', rA, l', htsE, hmtail, hcons⟩ := manyMN_succ_inv h10
                      rw [hr9'] at htsE
                      rw [htsE] at hts_in
                      injection hts_in with hts_in
                      injection hts_in with hv hrest2
                      injection hcons with hc1 hc2
                      have hcount : intAsUsize n_allele - 1 = tailA.length := by omega
                      rw [hcount, ← hrest2] at hm_in
                      rw [hm_in] at hmtail
                      injection hmtail with hmtail
                      injection hmtail with hvl hvlr
                      rw [BcfRecord.getAltAlleles, ← hl, hvl, ← hc2]
                      cases tailA <;> simp
            -- filters
            · intro fs hf
              simp only [RawBcfRecord.filters, RawBcfRecord.alleles,
                RawBcfRecord.n_alleles] at hf
              rcases hw16 : le_i16 (((input.take l_shared).drop 18).take 2) with e | ⟨w16, rw16⟩ <;>
                simp only [hw16] at hf
              · exact Except.noConfusion hf
              · rcases hm : manyMN (intAsUsize w16) typed_string
                    ((input.take l_shared).drop (24 + 1 + tdL.num_elements)) with
                  e | ⟨vA, remaining⟩ <;> simp only [hm] at hf
                · exact Except.noConfusion hf
                · rcases hti : typed_ints ((input.take l_shared).drop
                      ((input.take l_shared).length - remaining.length)) with e | ⟨ids, rI⟩ <;>
                    simp only [hti] at hf
                  · exact Except.noConfusion hf
                  · rcases hmf : h.metaFILTER with _ | fl <;> simp only [hmf] at hf
                    · exact Except.noConfusion hf
                    · have h20 : 2 ≤ ((input.take l_shared).drop 18).length := le_i16_take_len hw16
                      have hwin : ((input.take l_shared).drop 18).take 2 =
                          (input.drop 18).take 2 := by
                        apply take_window_agree
                        rw [List.length_drop] at h20
                        omega
                      have hev : le_i16 ((input.drop 18).take 2) = .ok (n_allele, []) :=
                        le_i16_val_take (e5 ▸ h6)
                      rw [hwin, hev] at hw16
                      injection hw16 with hw16
                      injection hw16 with hw16 hw16r
                      subst hw16
                      obtain ⟨k2, hk2⟩ := ds_manyMN ds_typed_string _ _ _ _ hm
                      have hsuf : remaining =
                          (input.take l_shared).drop (24 + 1 + tdL.num_elements + k2) := by
                        rw [hk2, List.drop_drop]
                      have hbp : (input.take l_shared).drop
                          ((input.take l_shared).length - remaining.length) = remaining :=
                        drop_length_sub_of_drop _ hsuf
                      rw [hbp] at hti
                      obtain ⟨ysA, hysA⟩ := take_drop_prefix input l_shared
                        (24 + 1 + tdL.num_elements)
                      have hm_in : manyMN (intAsUsize n_allele) typed_string
                          (input.drop (24 + 1 + tdL.num_elements)) =
                          .ok (vA, remaining ++ ysA) := by
                        rw [hysA]
                        exact ps_manyMN ps_typed_string _ _ _ _ _ hm
                      rw [← hr9'] at hm_in
                      rw [hm_in] at h10
                      injection h10 with h10
                      injection h10 with hva hrem
                      have hti_in : typed_ints (remaining ++ ysA) = .ok (ids, rI ++ ysA) :=
                        ps_typed_ints _ ysA _ _ hti
                      rw [hrem] at hti_in
                      rw [hti_in] at h11
                      injection h11 with h11
                      injection h11 with hids hidsr
                      rw [BcfRecord.getFilters]
                      simp only [hmf]
                      rw [← hids, hf]


/-- The header used for the concrete C1 record: one contig, a PASS filter,
and the single INFO tag `"T"` at idx 0. -/
def c1header : Header :=
  { metaFILTER := some [.Filter "PASS"], contigs := ["chr1"],
    info_tag_to_offset := [("T", 0)], format_tag_to_offset := [] }

/-- C1 counterexample: on the concrete record bytes `c7input`, the lazy
record's `info("T")` yields the decoded value while the eager record's
`info` is `unimplemented!()` and panics — so the two record types do not
produce identical values for every accessor of the shared interface. -/
theorem claim_C1_counterexample :
    (RawBcfRecord.new c7input []).bind (fun r => r.info c1header "T") =
      .ok (some (.Int32 [1])) ∧
    record_from_length 32 0 c7input = .ok (c7record, []) ∧
    BcfRecord.getInfo c7record c1header "T" = .error .panicked ∧
    (Except.ok (some (TypedVec.Int32 [1])) : Except PErr (Option TypedVec)) ≠
      .error .panicked := by
  refine ⟨rfl, rfl, rfl, by decide⟩

/-- C1 witness: the amended equivalence applied to the concrete record of
`c7input`, with each lazy-accessor hypothesis discharged by evaluation. -/
theorem claim_C1_lazy_eager_witness :
    BcfRecord.getPos c7record = 0 ∧
    BcfRecord.getChrom c7record c1header = .ok "chr1" ∧
    BcfRecord.getQual c7record = some 0 ∧
    BcfRecord.getRefAllele c7record = [65] ∧
    BcfRecord.getAltAlleles c7record = [] ∧
    BcfRecord.getFilters c7record c1header = .ok [] ∧
    BcfRecord.getInfo c7record c1header "T" = .error .panicked ∧
    BcfRecord.getFormat c7record c1header "T" = .error .panicked := by
  have H := claim_C1_lazy_eager c1header "T" 32 0 c7input c7record []
    ⟨c7input, [], 25⟩ (by decide) (by rfl) (by rfl) (by decide)
  exact ⟨H.1 0 (by rfl), H.2.1 "chr1" (by rfl), H.2.2.1 (some 0) (by rfl),
    H.2.2.2.1 [65] (by rfl), H.2.2.2.2.1 [] (by rfl), H.2.2.2.2.2.1 [] (by rfl),
    H.2.2.2.2.2.2.1, H.2.2.2.2.2.2.2⟩

end RustBcf
